import Mathlib

/-!
Verification of the FlashBuild generation pipeline (`src/app/api/generate/route.ts`
and `src/services/generation/pipeline/*`) against its natural-language specification.

The TypeScript sources are shallowly embedded: pure functions become Lean
functions over `String` / `List Char` / `List (String × String)`; JavaScript
numbers used for money are modelled as exact rationals (`ℚ`) with explicit
decimal rounding where the code calls `toFixed(4)`; fallible operations return
`Option` / `Except`; the effects of external model calls and child processes are
supplied as explicit oracle arguments, so every stage's deterministic logic is
an executable Lean definition.
-/

/-- Output stack selector (`OutputStack = 'react-tailwind' | 'vanilla'` in
`src/types/index.ts`). -/
inductive OutputStack where
  | reactTailwind
  | vanilla
deriving Repr, DecidableEq

/-- Quality gate strategy (`QualityMode = 'strict_visual' | 'balanced' | 'function_first'`). -/
inductive QualityMode where
  | strictVisual
  | balanced
  | functionFirst
deriving Repr, DecidableEq

/-- Preview runtime modes (`PreviewRuntimeMode = 'srcdoc' | 'sandpack' | 'remote'`). -/
inductive PreviewRuntimeMode where
  | srcdoc
  | sandpack
  | remote
deriving Repr, DecidableEq

/-- A generated project file (`GeneratedFile` in
`src/services/generation/pipeline/generateProject.ts`). -/
structure GeneratedFile where
  path : String
  content : String
  language : String
deriving Repr, DecidableEq

/-! ## Cost accounting (route.ts `addCost`, lines 126-133)

JavaScript: `totalEstimatedCost = Number((totalEstimatedCost + value).toFixed(4));`
followed by `if (totalEstimatedCost > maxCostUsd) throw`.  Money amounts are
modelled as exact rationals; `toFixed(4)` followed by `Number(...)` is modelled
as rounding to the nearest multiple of `1/10000` (`round` rounds half up; the
tie behaviour never affects the theorems below). -/

/-- Rounding to four decimal places, the model of `Number(x.toFixed(4))`. -/
def round4 (q : ℚ) : ℚ := (round (q * 10000) : ℤ) / 10000

/-- One `addCost` call: add the usage to the running total (rounded to four
decimals, as the source does) and throw when the new total exceeds the cap.
The thrown message is summarised by a fixed string (the source interpolates
the amounts into it). -/
def addCost (maxCostUsd total value : ℚ) : Except String ℚ :=
  let next := round4 (total + value)
  if maxCostUsd < next then
    Except.error "Generation stopped: estimated cost exceeded cap"
  else
    Except.ok next

/-- Folding `addCost` over the estimated costs of the successive model calls of
one request, starting from the running total; the first breach aborts the run
(all remaining calls are skipped), exactly as the thrown error aborts the
remaining pipeline stages. -/
def runCosts (maxCostUsd : ℚ) (total : ℚ) : List ℚ → Except String ℚ
  | [] => Except.ok total
  | v :: vs =>
    match addCost maxCostUsd total v with
    | Except.error e => Except.error e
    | Except.ok next => runCosts maxCostUsd next vs

/-- The successive values taken by `totalEstimatedCost`, one per completed
`addCost` call.  On a breach the accumulator is still updated before the throw
(route.ts line 127 precedes line 128), so the breaching total is the last
element and nothing follows it. -/
def costTrace (maxCostUsd : ℚ) (total : ℚ) : List ℚ → List ℚ
  | [] => []
  | v :: vs =>
    match addCost maxCostUsd total v with
    | Except.error _ => [round4 (total + v)]
    | Except.ok next => next :: costTrace maxCostUsd next vs

theorem round4_mono {a b : ℚ} (h : a ≤ b) : round4 a ≤ round4 b := by
  unfold round4
  have hr : round (a * 10000) ≤ round (b * 10000) := by
    simp only [round_eq]
    exact Int.floor_mono (by linarith)
  have : ((round (a * 10000) : ℤ) : ℚ) ≤ ((round (b * 10000) : ℤ) : ℚ) :=
    Int.cast_le.mpr hr
  exact div_le_div_of_nonneg_right this (by norm_num)

theorem round4_round4 (q : ℚ) : round4 (round4 q) = round4 q := by
  unfold round4
  have : ((round (q * 10000) : ℤ) : ℚ) / 10000 * 10000 = ((round (q * 10000) : ℤ) : ℚ) := by
    field_simp
  rw [this, round_intCast]

theorem addCost_ok_eq {cap total value t : ℚ}
    (h : addCost cap total value = Except.ok t) :
    t = round4 (total + value) ∧ t ≤ cap := by
  unfold addCost at h
  by_cases hb : cap < round4 (total + value)
  · simp [hb] at h
  · simp [hb] at h
    exact ⟨h.symm, h ▸ le_of_not_lt hb⟩

theorem addCost_error_iff {cap total value : ℚ} :
    (∃ e, addCost cap total value = Except.error e) ↔ cap < round4 (total + value) := by
  unfold addCost
  by_cases hb : cap < round4 (total + value) <;> simp [hb]

/-- Claim C1.  Starting from a four-decimal-stable running total that is within
the cap, with every model call's estimated cost non-negative: (a) the sequence
of values taken by `totalEstimatedCost` is monotonically non-decreasing; (b) a
run that completes without throwing ends with a total within the cap (the total
never silently exceeds it); (c) the run throws exactly when some call pushes
the rounded total above `maxCostUsd`, and the trace stops at that call — all
remaining calls are aborted. -/
theorem cost_accumulator_monotone_and_aborts_on_cap
    (cap total : ℚ) (costs : List ℚ)
    (hnn : ∀ c ∈ costs, 0 ≤ c) (hst : round4 total = total) (hle : total ≤ cap) :
    List.Chain' (· ≤ ·) (total :: costTrace cap total costs)
    ∧ (∀ t, runCosts cap total costs = Except.ok t → t ≤ cap)
    ∧ ((∃ e, runCosts cap total costs = Except.error e)
        ↔ ∃ t ∈ costTrace cap total costs, cap < t) := by
  induction costs generalizing total with
  | nil =>
    refine ⟨by simp [costTrace], ?_, ?_⟩
    · intro t ht
      simp only [runCosts, Except.ok.injEq] at ht
      exact ht ▸ hle
    · simp [runCosts, costTrace]
  | cons v vs ih =>
    have hv : 0 ≤ v := hnn v (List.mem_cons_self v vs)
    have hmono : total ≤ round4 (total + v) := by
      calc total = round4 total := hst.symm
        _ ≤ round4 (total + v) := round4_mono (by linarith)
    by_cases hb : cap < round4 (total + v)
    · have had : addCost cap total v = Except.error
          "Generation stopped: estimated cost exceeded cap" := by
        unfold addCost; simp [hb]
      refine ⟨?_, ?_, ?_⟩
      · simp [costTrace, had, hmono]
      · intro t ht
        simp [runCosts, had] at ht
      · simp [runCosts, costTrace, had, hb]
    · have had : addCost cap total v = Except.ok (round4 (total + v)) := by
        unfold addCost; simp [hb]
      have ihh := ih (round4 (total + v))
        (fun c hc => hnn c (List.mem_cons_of_mem v hc))
        (round4_round4 (total + v)) (le_of_not_lt hb)
      refine ⟨?_, ?_, ?_⟩
      · simpa [costTrace, had, hmono] using ihh.1
      · intro t ht
        simp only [runCosts, had] at ht
        exact ihh.2.1 t ht
      · simp only [runCosts, costTrace, had]
        rw [ihh.2.2]
        simp [not_lt.mpr (le_of_not_lt hb)]

/-- Witness for C1 at a concrete run: cap 1 USD, calls costing 0.5 then 0.75;
the second call breaches the cap and aborts the run. -/
theorem cost_accumulator_monotone_and_aborts_on_cap_witness :
    List.Chain' (· ≤ ·) ((0 : ℚ) :: costTrace 1 0 [1/2, 3/4])
    ∧ ((∃ e, runCosts 1 0 [1/2, 3/4] = Except.error e)
        ↔ ∃ t ∈ costTrace 1 0 [1/2, 3/4], (1 : ℚ) < t) := by
  have h := cost_accumulator_monotone_and_aborts_on_cap 1 0 [1/2, 3/4]
    (by intro c hc; simp at hc; rcases hc with h | h <;> norm_num [h])
    (by norm_num [round4]) (by norm_num)
  exact ⟨h.1, h.2.2⟩

/-! ## Character-list string utilities

The Builder's parser and the policy enforcer work on JavaScript strings via
regular expressions and `trim`/`split`.  They are embedded over `List Char`
(`String.data`), with each regular expression realised as an explicit scanner
matching the regex's greedy/lazy backtracking behaviour.  JavaScript's `\s`
and `trim` accept a few exotic Unicode spaces beyond ASCII whitespace; all
strings this development evaluates are ASCII, where `Char.isWhitespace`
agrees with them. -/

/-- Model of the character class `\s` and of the characters removed by
`String.prototype.trim`. -/
def isJsWs (c : Char) : Bool := c.isWhitespace

/-- Model of `String.prototype.trim` over a character list: drop trailing
whitespace (via the reversal) and then leading whitespace. -/
def jsTrimL (cs : List Char) : List Char :=
  ((cs.reverse.dropWhile isJsWs).reverse).dropWhile isJsWs

/-- Model of `String.prototype.trim`. -/
def jsTrim (s : String) : String := String.mk (jsTrimL s.data)

/-- Split a string at every occurrence of a separator character (empty parts
kept), the model of JavaScript `split` with a one-character separator. -/
def splitOnCharGo (sep : Char) (acc : List Char) : List Char → List String
  | [] => [String.mk acc.reverse]
  | c :: rest =>
    if c = sep then String.mk acc.reverse :: splitOnCharGo sep [] rest
    else splitOnCharGo sep (c :: acc) rest

/-- JavaScript `s.split(sep)` for a one-character separator. -/
def splitOnChar (sep : Char) (s : String) : List String :=
  splitOnCharGo sep [] s.data

/-- ASCII lower-casing of a string (`String.prototype.toLowerCase`). -/
def lowerS (s : String) : String := String.mk (s.data.map Char.toLower)

/-- `String.prototype.endsWith`. -/
def endsWithS (s suff : String) : Bool :=
  suff.data.reverse.isPrefixOf s.data.reverse

/-- Drop `pat` from the front of `cs`, or fail; the literal-prefix step of the
regex scanners below. -/
def dropPrefixL (pat : List Char) (cs : List Char) : Option (List Char) :=
  match pat, cs with
  | [], rest => some rest
  | _ :: _, [] => none
  | p :: ps, c :: rest => if p = c then dropPrefixL ps rest else none

/-- Does `pat` occur as a contiguous run anywhere in the text?  Model of a
flagless `RegExp.test` with a literal pattern. -/
def containsSeq (pat : List Char) : List Char → Bool
  | [] => pat.isPrefixOf ([] : List Char)
  | c :: rest => pat.isPrefixOf (c :: rest) || containsSeq pat rest

/-- Rebuilding a `String` from its character data is the identity. -/
theorem stringMk_data (s : String) : String.mk s.data = s := rfl

/-! ## The Builder grammar parser (`generateProject.ts` `parseFiles`, lines 130-145)

The source matches `/---FILE:\s*(.+?)---\n([\s\S]*?)---END FILE---/g` in a loop.
The scanners below realise this pattern's semantics directly: a literal
`---FILE:` header; a greedy `\s*` run (longest first, backing off on failure);
a lazy non-empty newline-free capture `(.+?)` ended by the first viable
`---\n`; and a lazy capture `([\s\S]*?)` ended by the first occurrence of
`---END FILE---`.  A failed content search cannot be rescued by a longer path
capture or a shorter whitespace run (any later content start sees a subset of
the `---END FILE---` occurrences, and the first viable `---\n` terminator is
the same for every whitespace split), so the scanners return `none` for the
whole start position exactly when the regex fails there, and the global loop
then advances by one character, as `RegExp.exec` does. -/

/-- Literal header `---FILE:` of the Builder grammar. -/
def fileHeaderMark : List Char := ['-', '-', '-', 'F', 'I', 'L', 'E', ':']

/-- Literal `---\n` terminating the path capture. -/
def pathEndMark : List Char := ['-', '-', '-', '\n']

/-- Literal `---END FILE---` terminating the content capture. -/
def endFileMark : List Char :=
  ['-', '-', '-', 'E', 'N', 'D', ' ', 'F', 'I', 'L', 'E', '-', '-', '-']

/-- The lazy group `(.+?)---\n`: consume non-newline characters one at a time,
accepting the terminator at the earliest position after at least one consumed
character. -/
def lazyPathScan (acc : List Char) (cs : List Char) : Option (List Char × List Char) :=
  if acc ≠ [] ∧ pathEndMark.isPrefixOf cs then some (acc.reverse, cs.drop 4)
  else
    match cs with
    | [] => none
    | c :: rest => if c = '\n' then none else lazyPathScan (c :: acc) rest

/-- The group `\s*(.+?)---\n`: the greedy whitespace run prefers consuming
another whitespace character, falling back to starting the path capture here. -/
def wsThenPath (cs : List Char) : Option (List Char × List Char) :=
  match cs with
  | [] => lazyPathScan [] []
  | c :: rest =>
    if isJsWs c then
      match wsThenPath rest with
      | some r => some r
      | none => lazyPathScan [] (c :: rest)
    else lazyPathScan [] (c :: rest)

/-- The lazy group `([\s\S]*?)` followed by a literal: split the text at the
first occurrence of `pat`, returning the text before it and the text after. -/
def untilSeq (pat : List Char) (acc : List Char) (cs : List Char) :
    Option (List Char × List Char) :=
  if pat.isPrefixOf cs then some (acc.reverse, cs.drop pat.length)
  else
    match cs with
    | [] => none
    | c :: rest => untilSeq pat (c :: acc) rest

/-- One attempt of the file-block regex at the current position: literal
header, whitespace-then-path, then content up to `---END FILE---`.  Returns
the raw path capture, the raw content capture and the unconsumed rest. -/
def matchFileBlockAt (cs : List Char) : Option (List Char × List Char × List Char) :=
  match dropPrefixL fileHeaderMark cs with
  | none => none
  | some afterHeader =>
    match wsThenPath afterHeader with
    | none => none
    | some (p, afterPath) =>
      match untilSeq endFileMark [] afterPath with
      | none => none
      | some (c, rest) => some (p, c, rest)

/-- The global `exec` loop: emit the match at the current position if there is
one and continue after it, otherwise advance one character.  Fuel bounds the
number of steps; each step consumes at least one character, so `length + 1`
steps always suffice (`scanBlocksGo_congr` below). -/
def scanBlocksGo : Nat → List Char → List (List Char × List Char)
  | 0, _ => []
  | Nat.succ fuel, cs =>
    match matchFileBlockAt cs with
    | some (p, c, rest) => (p, c) :: scanBlocksGo fuel rest
    | none =>
      match cs with
      | [] => []
      | _ :: rest => scanBlocksGo fuel rest

/-- All matches of the file-block regex over the text, leftmost first. -/
def scanBlocks (cs : List Char) : List (List Char × List Char) :=
  scanBlocksGo (cs.length + 1) cs

/-- The character class `[\w-]` of the opening-fence regex. -/
def isWordLike (c : Char) : Bool := c.isAlphanum || c = '_' || c = Char.ofNat 45

/-- Three backticks, the markdown fence delimiter. -/
def fenceMark : List Char := [Char.ofNat 96, Char.ofNat 96, Char.ofNat 96]

/-- Model of `content.replace(/^```[\w-]*\s*\n?/, '')`: when the content opens
with a fence, drop it together with the greedy language-tag and whitespace run
(the optional `\n` is already consumed by the greedy `\s*`). -/
def stripOpenFence (cs : List Char) : List Char :=
  match dropPrefixL fenceMark cs with
  | none => cs
  | some rest => (rest.dropWhile isWordLike).dropWhile isJsWs

/-- Does `` ```\s*$ `` match here, i.e. a fence followed only by whitespace up
to the end of the string? -/
def fenceThenWs (cs : List Char) : Bool :=
  fenceMark.isPrefixOf cs && (cs.drop 3).all isJsWs

/-- Model of `content.replace(/\n?```\s*$/, '')`: delete the leftmost suffix
match (an optional newline, a fence, then only whitespace to the end). -/
def stripCloseFence : List Char → List Char
  | [] => []
  | c :: rest =>
    if (c = '\n' && fenceThenWs rest) || fenceThenWs (c :: rest) then []
    else c :: stripCloseFence rest

/-- The content post-processing of `parseFiles`: `match[2].trim()`, fence
stripping, and a final `trim`. -/
def processContent (cs : List Char) : List Char :=
  jsTrimL (stripCloseFence (stripOpenFence (jsTrimL cs)))

/-- Extension-to-language map of `generateProject.ts` `buildLanguage`
(lines 114-128): last `.`-separated component, lower-cased, looked up in the
language table with a `plaintext` default. -/
def buildLanguage (path : String) : String :=
  let ext := lowerS ((splitOnChar '.' path).getLastD "")
  (([("html", "html"), ("htm", "html"), ("css", "css"), ("js", "javascript"),
     ("jsx", "jsx"), ("ts", "typescript"), ("tsx", "tsx"), ("json", "json"),
     ("md", "markdown")] : List (String × String)).lookup ext).getD "plaintext"

/-- `parseFiles` (`generateProject.ts` lines 130-145): every regex match
becomes a `GeneratedFile` with trimmed path, trimmed fence-stripped content
and the language derived from the path. -/
def parseFiles (raw : String) : List GeneratedFile :=
  (scanBlocks raw.data).map (fun pc =>
    let path := String.mk (jsTrimL pc.1)
    { path := path
      content := String.mk (processContent pc.2)
      language := buildLanguage path })

/-- JavaScript `Array.prototype.join` with a separator. -/
def joinSep (sep : String) : List String → String
  | [] => ""
  | [x] => x
  | x :: y :: xs => x ++ sep ++ joinSep sep (y :: xs)

/-- Serialization of one existing file into the Builder grammar
(`generateProject.ts` `buildUserInput`, lines 178-180). -/
def serializeFileBlock (f : GeneratedFile) : String :=
  "---FILE: " ++ f.path ++ "---\n" ++ f.content ++ "\n---END FILE---"

/-- Serialization of a file set into the Builder grammar: one block per file,
joined by blank lines (`generateProject.ts` lines 178-180). -/
def serializeFiles (fs : List GeneratedFile) : String :=
  joinSep "\n\n" (fs.map serializeFileBlock)

/-! ## Round-trip of the Builder grammar (claim C5)

Supporting lemmas: how the scanners behave on a serialized block
`---FILE: <path>---\n<content>\n---END FILE---`. -/

theorem dropPrefixL_self (pat rest : List Char) :
    dropPrefixL pat (pat ++ rest) = some rest := by
  induction pat with
  | nil => rfl
  | cons p ps ih => simp [dropPrefixL, ih]

theorem dropPrefixL_length {pat cs r : List Char}
    (h : dropPrefixL pat cs = some r) : pat.length + r.length = cs.length := by
  induction pat generalizing cs with
  | nil =>
    simp [dropPrefixL] at h
    simp [h]
  | cons p ps ih =>
    match cs with
    | [] => simp [dropPrefixL] at h
    | c :: rest =>
      simp only [dropPrefixL] at h
      by_cases hpc : p = c
      · simp only [hpc, if_pos rfl] at h
        have := ih h
        simp [List.length_cons]
        omega
      · simp [hpc] at h

theorem isPrefixOf_append_self (pat t : List Char) :
    pat.isPrefixOf (pat ++ t) = true := by
  induction pat with
  | nil => simp [List.isPrefixOf]
  | cons p ps ih => simp [List.isPrefixOf, ih]

/-- A newline-free pattern matching as a prefix across a newline boundary must
already match before the boundary. -/
theorem isPrefixOf_of_prefix_across_newline {pat x y : List Char}
    (hnl : '\n' ∉ pat) (h : pat.isPrefixOf (x ++ '\n' :: y) = true) :
    pat.isPrefixOf x = true := by
  induction pat generalizing x with
  | nil => simp [List.isPrefixOf]
  | cons a pa ih =>
    have hanl : a ≠ '\n' := by
      intro he
      exact hnl (he ▸ List.mem_cons_self a pa)
    match x with
    | [] =>
      simp only [List.nil_append, List.isPrefixOf, Bool.and_eq_true, beq_iff_eq] at h
      exact absurd h.1 hanl
    | b :: xs =>
      simp only [List.cons_append, List.isPrefixOf, Bool.and_eq_true] at h ⊢
      exact ⟨h.1, ih (fun hm => hnl (List.mem_cons_of_mem a hm)) h.2⟩

/-- Inside a serialized block the path terminator `---\n` cannot match before
the end of a newline-free path: its `\n` would have to fall inside the path or
inside the literal dashes. -/
theorem pathEndMark_not_prefix_shift (p t : List Char) (hne : p ≠ [])
    (hnl : ∀ c ∈ p, c ≠ '\n') :
    pathEndMark.isPrefixOf (p ++ pathEndMark ++ t) = false := by
  have hch : (('\n' : Char) == '-') = false := by decide
  match p, hne with
  | [a], _ => simp [pathEndMark, List.isPrefixOf, hch]
  | [a, b], _ => simp [pathEndMark, List.isPrefixOf, hch]
  | [a, b, c], _ => simp [pathEndMark, List.isPrefixOf, hch]
  | a :: b :: c :: d :: r, _ =>
    have hd : (('\n' : Char) == d) = false := by
      have : d ≠ '\n' := hnl d (by simp)
      simpa [beq_eq_false_iff_ne] using fun he => this he.symm
    simp [pathEndMark, List.isPrefixOf, hd]

theorem lazyPathScan_serialized (p : List Char) (acc t : List Char)
    (hnl : ∀ c ∈ p, c ≠ '\n') (hne : acc ≠ [] ∨ p ≠ []) :
    lazyPathScan acc (p ++ pathEndMark ++ t) = some (acc.reverse ++ p, t) := by
  induction p generalizing acc with
  | nil =>
    have hacc : acc ≠ [] := by
      rcases hne with h | h
      · exact h
      · exact absurd rfl h
    have hp : pathEndMark.isPrefixOf (pathEndMark ++ t) = true := isPrefixOf_append_self _ _
    simp only [List.nil_append, lazyPathScan]
    rw [if_pos ⟨hacc, hp⟩]
    show some (acc.reverse, t) = some (acc.reverse ++ [], t)
    simp
  | cons d p' ih =>
    have hd : d ≠ '\n' := hnl d (by simp)
    have hpre : pathEndMark.isPrefixOf (d :: (p' ++ (pathEndMark ++ t))) = false := by
      have h0 := pathEndMark_not_prefix_shift (d :: p') t (by simp) hnl
      simpa [List.append_assoc] using h0
    have hrec := ih (d :: acc) (fun c hc => hnl c (List.mem_cons_of_mem d hc)) (Or.inl (by simp))
    simp only [List.cons_append, List.append_assoc] at hrec ⊢
    simp only [lazyPathScan]
    rw [if_neg (by rintro ⟨-, habs⟩; rw [hpre] at habs; exact absurd habs (by simp))]
    show (if d = '\n' then none else lazyPathScan (d :: acc) (p' ++ (pathEndMark ++ t))) = _
    rw [if_neg hd, hrec]
    simp

theorem wsThenPath_serialized (d : Char) (p' t : List Char)
    (hdw : isJsWs d = false) (hnl : ∀ c ∈ d :: p', c ≠ '\n') :
    wsThenPath (' ' :: ((d :: p') ++ pathEndMark ++ t)) = some (d :: p', t) := by
  have hlazy := lazyPathScan_serialized (d :: p') [] t hnl (Or.inr (by simp))
  simp only [List.cons_append, List.append_assoc] at hlazy ⊢
  simp only [wsThenPath]
  rw [if_pos (show isJsWs ' ' = true by decide)]
  rw [if_neg (show ¬ isJsWs d = true by simp [hdw])]
  rw [hlazy]
  simp

theorem untilSeq_endmark (c : List Char) (acc t : List Char)
    (hnm : containsSeq endFileMark c = false) :
    untilSeq endFileMark acc (c ++ '\n' :: (endFileMark ++ t))
      = some (acc.reverse ++ (c ++ ['\n']), t) := by
  induction c generalizing acc with
  | nil =>
    have h1 : endFileMark.isPrefixOf ('\n' :: (endFileMark ++ t)) = false := by
      have hch : (('-' : Char) == '\n') = false := by decide
      simp [endFileMark, List.isPrefixOf, hch]
    simp only [List.nil_append]
    rw [untilSeq.eq_def]
    rw [if_neg (by rintro habs; rw [h1] at habs; exact absurd habs (by simp))]
    show untilSeq endFileMark ('\n' :: acc) (endFileMark ++ t) = _
    rw [untilSeq.eq_def]
    rw [if_pos (isPrefixOf_append_self endFileMark t)]
    show some (('\n' :: acc).reverse, t) = _
    simp
  | cons x c' ih =>
    have hnm1 : endFileMark.isPrefixOf (x :: c') = false := by
      have h0 := hnm
      simp only [containsSeq, Bool.or_eq_false_iff] at h0
      exact h0.1
    have hnm2 : containsSeq endFileMark c' = false := by
      have h0 := hnm
      simp only [containsSeq, Bool.or_eq_false_iff] at h0
      exact h0.2
    have hpre : endFileMark.isPrefixOf (x :: (c' ++ '\n' :: (endFileMark ++ t))) = false := by
      rcases Bool.eq_false_or_eq_true
          (endFileMark.isPrefixOf (x :: (c' ++ '\n' :: (endFileMark ++ t)))) with h | h
      swap
      · exact h
      · exfalso
        have hb : endFileMark.isPrefixOf ((x :: c') ++ '\n' :: (endFileMark ++ t)) = true := by
          simpa only [List.cons_append] using h
        have hx := isPrefixOf_of_prefix_across_newline (by decide) hb
        rw [hnm1] at hx
        exact absurd hx (by simp)
    have hrec := ih (x :: acc) hnm2
    simp only [List.cons_append]
    rw [untilSeq.eq_def]
    rw [if_neg (by rintro habs; rw [hpre] at habs; exact absurd habs (by simp))]
    show untilSeq endFileMark (x :: acc) (c' ++ '\n' :: (endFileMark ++ t)) = _
    rw [hrec]
    simp

theorem lazyPathScan_length {acc cs p r : List Char}
    (h : lazyPathScan acc cs = some (p, r)) : r.length ≤ cs.length := by
  induction cs generalizing acc with
  | nil =>
    rw [lazyPathScan.eq_def] at h
    by_cases hc : acc ≠ [] ∧ pathEndMark.isPrefixOf ([] : List Char) = true
    · exact absurd hc.2 (by simp [pathEndMark, List.isPrefixOf])
    · rw [if_neg hc] at h
      exact absurd h (by simp)
  | cons c rest ih =>
    rw [lazyPathScan.eq_def] at h
    by_cases hc : acc ≠ [] ∧ pathEndMark.isPrefixOf (c :: rest) = true
    · rw [if_pos hc] at h
      have hr : r = (c :: rest).drop 4 := by
        have h2 := h
        simp only [Option.some.injEq, Prod.mk.injEq] at h2
        exact h2.2.symm
      rw [hr]
      simp only [List.length_drop, List.length_cons]
      omega
    · rw [if_neg hc] at h
      have h' : (if c = '\n' then none else lazyPathScan (c :: acc) rest) = some (p, r) := h
      by_cases hn : c = '\n'
      · rw [if_pos hn] at h'
        exact absurd h' (by simp)
      · rw [if_neg hn] at h'
        exact (ih h').trans (by simp)

theorem wsThenPath_length {cs p r : List Char}
    (h : wsThenPath cs = some (p, r)) : r.length ≤ cs.length := by
  induction cs with
  | nil =>
    simp only [wsThenPath] at h
    exact lazyPathScan_length h
  | cons c rest ih =>
    simp only [wsThenPath] at h
    by_cases hw : isJsWs c = true
    · rw [if_pos hw] at h
      cases hrec : wsThenPath rest with
      | some pr =>
        rw [hrec] at h
        simp only [Option.some.injEq] at h
        obtain ⟨p', r'⟩ := pr
        cases h
        exact (ih hrec).trans (by simp)
      | none =>
        rw [hrec] at h
        exact lazyPathScan_length h
    · rw [if_neg hw] at h
      exact lazyPathScan_length h

theorem untilSeq_length {pat acc cs c r : List Char}
    (h : untilSeq pat acc cs = some (c, r)) : r.length ≤ cs.length := by
  induction cs generalizing acc with
  | nil =>
    rw [untilSeq.eq_def] at h
    by_cases hc : pat.isPrefixOf ([] : List Char) = true
    · rw [if_pos hc] at h
      simp only [Option.some.injEq, Prod.mk.injEq] at h
      simp [← h.2, List.length_drop]
    · rw [if_neg hc] at h
      exact absurd h (by simp)
  | cons x rest ih =>
    rw [untilSeq.eq_def] at h
    by_cases hc : pat.isPrefixOf (x :: rest) = true
    · rw [if_pos hc] at h
      simp only [Option.some.injEq, Prod.mk.injEq] at h
      simp [← h.2, List.length_drop]
    · rw [if_neg hc] at h
      exact (ih h).trans (by simp)

theorem matchFileBlockAt_length {cs p c r : List Char}
    (h : matchFileBlockAt cs = some (p, c, r)) : r.length < cs.length := by
  unfold matchFileBlockAt at h
  cases hdp : dropPrefixL fileHeaderMark cs with
  | none => simp [hdp] at h
  | some afterHeader =>
    simp only [hdp] at h
    cases hws : wsThenPath afterHeader with
    | none => simp [hws] at h
    | some pr =>
      obtain ⟨pp, afterPath⟩ := pr
      simp only [hws] at h
      cases hus : untilSeq endFileMark [] afterPath with
      | none => simp [hus] at h
      | some cr =>
        obtain ⟨cc, rest⟩ := cr
        simp only [hus, Option.some.injEq, Prod.mk.injEq] at h
        obtain ⟨-, -, hr⟩ := h
        have h1 := dropPrefixL_length hdp
        have h2 := wsThenPath_length hws
        have h3 := untilSeq_length hus
        have h4 : fileHeaderMark.length = 8 := by decide
        subst hr
        omega

theorem scanBlocksGo_congr (fuel : Nat) :
    ∀ (fuel' : Nat) (cs : List Char), cs.length < fuel → cs.length < fuel' →
      scanBlocksGo fuel cs = scanBlocksGo fuel' cs := by
  induction fuel with
  | zero => intro fuel' cs h _; omega
  | succ n ih =>
    intro fuel' cs h h'
    match fuel', h' with
    | Nat.succ m, h' =>
      simp only [scanBlocksGo]
      cases hm : matchFileBlockAt cs with
      | some pcr =>
        obtain ⟨p, c, r⟩ := pcr
        have hlen := matchFileBlockAt_length hm
        show (p, c) :: scanBlocksGo n r = (p, c) :: scanBlocksGo m r
        rw [ih m r (by omega) (by omega)]
      | none =>
        cases cs with
        | nil => rfl
        | cons a rest =>
          simp only [List.length_cons] at h h'
          show scanBlocksGo n rest = scanBlocksGo m rest
          exact ih m rest (by omega) (by omega)

/-- Unfolding `scanBlocks` on a successful match: emit it and continue after. -/
theorem scanBlocks_match {cs p c r : List Char}
    (h : matchFileBlockAt cs = some (p, c, r)) :
    scanBlocks cs = (p, c) :: scanBlocks r := by
  have hlen := matchFileBlockAt_length h
  show scanBlocksGo (cs.length + 1) cs = (p, c) :: scanBlocksGo (r.length + 1) r
  rw [show cs.length + 1 = Nat.succ cs.length from rfl]
  simp only [scanBlocksGo, h]
  show (p, c) :: scanBlocksGo cs.length r = (p, c) :: scanBlocksGo (r.length + 1) r
  rw [scanBlocksGo_congr cs.length (r.length + 1) r (by omega) (by omega)]

/-- Unfolding `scanBlocks` when no match starts here: advance one character. -/
theorem scanBlocks_skip {a : Char} {cs : List Char}
    (h : matchFileBlockAt (a :: cs) = none) :
    scanBlocks (a :: cs) = scanBlocks cs := by
  show scanBlocksGo ((a :: cs).length + 1) (a :: cs) = scanBlocksGo (cs.length + 1) cs
  rw [show (a :: cs).length + 1 = Nat.succ (cs.length + 1) from rfl]
  simp only [scanBlocksGo, h]

/-- No block match can start at a newline: the literal header begins with a dash. -/
theorem matchFileBlockAt_newline (cs : List Char) :
    matchFileBlockAt ('\n' :: cs) = none := by
  unfold matchFileBlockAt
  have : dropPrefixL fileHeaderMark ('\n' :: cs) = none := by
    simp [fileHeaderMark, dropPrefixL]
  rw [this]

/-- The head of a `dropWhile` result does not satisfy the predicate. -/
theorem dropWhile_eq_cons_head {pred : Char → Bool} {l : List Char} {h : Char} {t : List Char}
    (he : l.dropWhile pred = h :: t) : pred h = false := by
  induction l with
  | nil => simp at he
  | cons a l' ih =>
    rw [List.dropWhile_cons] at he
    by_cases hp : pred a = true
    · rw [if_pos hp] at he
      exact ih he
    · rw [if_neg hp] at he
      have : a = h := (List.cons.injEq a l' h t ▸ he).1
      rw [← this]
      exact Bool.not_eq_true _ ▸ hp

/-- A non-empty string equal to its own trim starts with a non-whitespace
character. -/
theorem head_not_ws_of_jsTrimL_stable {d : Char} {p : List Char}
    (h : jsTrimL (d :: p) = d :: p) : isJsWs d = false :=
  dropWhile_eq_cons_head h

/-- Trimming absorbs a trailing newline. -/
theorem jsTrimL_append_newline (c : List Char) : jsTrimL (c ++ ['\n']) = jsTrimL c := by
  unfold jsTrimL
  rw [List.reverse_append]
  simp [List.dropWhile_cons, isJsWs]

/-- Canonical form for the Builder grammar: exactly the file sets on which the
parser's trimming, fence stripping and lazy content capture are the identity.
The path is non-empty, newline-free and trim-stable; the content is
trim-stable, contains no `---END FILE---` marker, and is untouched by both
fence strippers. -/
abbrev canonicalBuilderFile (f : GeneratedFile) : Prop :=
  f.path.data ≠ [] ∧ ('\n' ∉ f.path.data) ∧ jsTrimL f.path.data = f.path.data ∧
  jsTrimL f.content.data = f.content.data ∧
  containsSeq endFileMark f.content.data = false ∧
  stripOpenFence f.content.data = f.content.data ∧
  stripCloseFence f.content.data = f.content.data

/-- The content post-processing is the identity on canonical content with the
serialized trailing newline. -/
theorem processContent_canonical {c : List Char}
    (htrim : jsTrimL c = c) (hopen : stripOpenFence c = c) (hclose : stripCloseFence c = c) :
    processContent (c ++ ['\n']) = c := by
  unfold processContent
  rw [jsTrimL_append_newline, htrim, hopen, hclose, htrim]

/-- The block regex matches a serialized canonical block exactly, capturing the
path verbatim and the content with the serialized trailing newline. -/
theorem matchFileBlockAt_block (pd cd rest : List Char)
    (hne : pd ≠ []) (hnl : ∀ c ∈ pd, c ≠ '\n')
    (hhw : ∀ d q, pd = d :: q → isJsWs d = false)
    (hnm : containsSeq endFileMark cd = false) :
    matchFileBlockAt
        (fileHeaderMark ++ ' ' :: (pd ++ (pathEndMark ++ (cd ++ '\n' :: (endFileMark ++ rest)))))
      = some (pd, cd ++ ['\n'], rest) := by
  obtain ⟨d, q, rfl⟩ : ∃ d q, pd = d :: q := by
    cases hp : pd with
    | nil => exact absurd hp hne
    | cons d q => exact ⟨d, q, rfl⟩
  have hdw : isJsWs d = false := hhw d q rfl
  have hws := wsThenPath_serialized d q (cd ++ '\n' :: (endFileMark ++ rest)) hdw hnl
  simp only [List.cons_append, List.append_assoc] at hws
  have hus := untilSeq_endmark cd [] rest hnm
  simp only [List.reverse_nil, List.nil_append] at hus
  unfold matchFileBlockAt
  rw [dropPrefixL_self]
  show (match wsThenPath (' ' :: (d :: (q ++ (pathEndMark ++ (cd ++ '\n' :: (endFileMark ++ rest)))))) with
        | none => none
        | some (p, afterPath) =>
          match untilSeq endFileMark [] afterPath with
          | none => none
          | some (c, r) => some (p, c, r)) = some (d :: q, cd ++ ['\n'], rest)
  rw [hws]
  show (match untilSeq endFileMark [] (cd ++ '\n' :: (endFileMark ++ rest)) with
        | none => none
        | some (c, r) => some (d :: q, c, r)) = some (d :: q, cd ++ ['\n'], rest)
  rw [hus]

/-- A serialized canonical file block followed by arbitrary text is matched
exactly by the block regex. -/
theorem matchFileBlockAt_serializedFile (f : GeneratedFile) (rest : List Char)
    (hcan : canonicalBuilderFile f) :
    matchFileBlockAt ((serializeFileBlock f).data ++ rest)
      = some (f.path.data, f.content.data ++ ['\n'], rest) := by
  obtain ⟨hne, hnotin, hpt, hct, hnm, hopen, hclose⟩ := hcan
  have hdata : (serializeFileBlock f).data ++ rest
      = fileHeaderMark ++ ' ' ::
          (f.path.data ++ (pathEndMark ++ (f.content.data ++ '\n' :: (endFileMark ++ rest)))) := by
    unfold serializeFileBlock
    simp only [String.data_append]
    simp [fileHeaderMark, pathEndMark, endFileMark, List.cons_append, List.append_assoc]
  rw [hdata]
  refine matchFileBlockAt_block f.path.data f.content.data rest hne ?_ ?_ hnm
  · intro c hc he
    exact hnotin (he ▸ hc)
  · intro d q hdq
    exact head_not_ws_of_jsTrimL_stable (hdq ▸ hpt)

/-- Parsing the serialization of a canonical file set recovers every block, in
order, with the raw captures. -/
theorem scanBlocks_serializeFiles (fs : List GeneratedFile)
    (h : ∀ f ∈ fs, canonicalBuilderFile f) :
    scanBlocks (serializeFiles fs).data
      = fs.map (fun f => (f.path.data, f.content.data ++ ['\n'])) := by
  induction fs with
  | nil => rfl
  | cons f fs' ih =>
    cases fs' with
    | nil =>
      have hm := matchFileBlockAt_serializedFile f [] (h f (by simp))
      rw [List.append_nil] at hm
      have hone : (serializeFiles [f]).data = (serializeFileBlock f).data := rfl
      rw [hone, scanBlocks_match hm]
      rfl
    | cons g fs'' =>
      have hm := matchFileBlockAt_serializedFile f
        ('\n' :: '\n' :: (serializeFiles (g :: fs'')).data) (h f (by simp))
      have hdata : (serializeFiles (f :: g :: fs'')).data
          = (serializeFileBlock f).data ++ ('\n' :: '\n' :: (serializeFiles (g :: fs'')).data) := by
        show (serializeFileBlock f ++ "\n\n" ++ serializeFiles (g :: fs'')).data = _
        simp only [String.data_append]
        simp [List.cons_append, List.append_assoc]
      rw [hdata, scanBlocks_match hm,
        scanBlocks_skip (matchFileBlockAt_newline _),
        scanBlocks_skip (matchFileBlockAt_newline _),
        ih (fun g' hg' => h g' (List.mem_cons_of_mem f hg'))]
      rfl

/-- Claim C5, amended.  For every file set in the parser's canonical form
(paths non-empty, newline-free and trim-stable; contents trim-stable, free of
the `---END FILE---` marker and untouched by the fence strippers), serializing
each file as `---FILE: <path>---\n<content>\n---END FILE---` joined by blank
lines — the Builder's serialization of existing files on a repair pass — and
re-parsing the concatenation with the Builder's parser yields the identical
paths and contents, order preserved.  (The unamended claim fails for contents
the parser normalizes, see `builder_grammar_roundtrip_counterexample`.) -/
theorem builder_grammar_roundtrip (fs : List GeneratedFile)
    (h : ∀ f ∈ fs, canonicalBuilderFile f) :
    (parseFiles (serializeFiles fs)).map (fun f => (f.path, f.content))
      = fs.map (fun f => (f.path, f.content)) := by
  unfold parseFiles
  rw [scanBlocks_serializeFiles fs h]
  rw [List.map_map, List.map_map]
  refine List.map_congr_left ?_
  intro f hf
  obtain ⟨hne, hnotin, hpt, hct, hnm, hopen, hclose⟩ := h f hf
  simp only [Function.comp_apply]
  rw [hpt, processContent_canonical hct hopen hclose]

/-- Counterexample to C5 as stated: a file whose content carries trailing
whitespace is not reproduced identically — the parser trims the capture, so
content `"x "` comes back as `"x"`. -/
theorem builder_grammar_roundtrip_counterexample :
    (parseFiles (serializeFiles [⟨"a.txt", "x ", "plaintext"⟩])).map
        (fun f => (f.path, f.content))
      ≠ [("a.txt", "x ")] := by
  decide

/-- Witness for the amended C5 at a concrete canonical file set. -/
theorem builder_grammar_roundtrip_witness :
    (parseFiles (serializeFiles
        [⟨"src/App.tsx", "hello\nworld", "tsx"⟩, ⟨"b.css", "", "css"⟩])).map
        (fun f => (f.path, f.content))
      = [("src/App.tsx", "hello\nworld"), ("b.css", "")] := by
  have h := builder_grammar_roundtrip
    [⟨"src/App.tsx", "hello\nworld", "tsx"⟩, ⟨"b.css", "", "css"⟩]
    (by intro f hf; simp at hf; rcases hf with h | h <;> (rw [h]; decide))
  simpa using h

/-! ## Temp-dir path guard (`validateRuntimeBuild.ts` `normalizePath`, lines 422-426)

`path.posix.normalize(filePath.replace(/\\/g, '/'))` followed by rejection of
results starting with `../` or `/`.  Node's posix `normalize` is embedded
segment-wise: split on `/`, resolve `.` and `..` against a stack (`..` kept at
the front only for relative paths), re-join, preserving a trailing separator
and falling back to `.` / `/` for empty results. -/

/-- The `..` path segment. -/
def parentSeg : List Char := ['.', '.']

def splitOnSlashGo (acc : List Char) : List Char → List (List Char)
  | [] => [acc.reverse]
  | c :: rest =>
    if c = '/' then acc.reverse :: splitOnSlashGo [] rest
    else splitOnSlashGo (c :: acc) rest

/-- Split a path into `/`-separated segments (empty segments preserved). -/
def splitOnSlash (cs : List Char) : List (List Char) := splitOnSlashGo [] cs

/-- The segment resolution loop of Node's `normalizeString`: drop empty and
`.` segments; on `..` pop a real segment, stack another `..` on top of kept
`..`s, and at the bottom keep it only when above-root traversal is allowed
(relative paths). -/
def normSegsGo (allowAboveRoot : Bool) (acc : List (List Char)) :
    List (List Char) → List (List Char)
  | [] => acc.reverse
  | seg :: rest =>
    if seg = [] ∨ seg = ['.'] then normSegsGo allowAboveRoot acc rest
    else if seg = parentSeg then
      match acc with
      | top :: acc' =>
        if top = parentSeg then normSegsGo allowAboveRoot (parentSeg :: top :: acc') rest
        else normSegsGo allowAboveRoot acc' rest
      | [] =>
        if allowAboveRoot then normSegsGo allowAboveRoot [parentSeg] rest
        else normSegsGo allowAboveRoot [] rest
    else normSegsGo allowAboveRoot (seg :: acc) rest

/-- Join segments with `/`. -/
def joinSegs : List (List Char) → List Char
  | [] => []
  | [s] => s
  | s :: t :: rest => s ++ '/' :: joinSegs (t :: rest)

/-- The resolved segment body of Node's posix `normalize`: `..` may stay at
the front only for relative paths (`allowAboveRoot`). -/
def posixBody (cs : List Char) : List Char :=
  joinSegs (normSegsGo (!(decide (cs.head? = some '/'))) [] (splitOnSlash cs))

/-- Node's `path.posix.normalize`: resolve the segments, then restore the
leading separator of absolute paths and the trailing separator, with `.` (or
`/`) for paths that normalize to nothing. -/
def posixNormalize (cs : List Char) : List Char :=
  if posixBody cs = [] then
    if decide (cs.head? = some '/') then ['/']
    else if decide (cs.getLast? = some '/') then ['.', '/'] else ['.']
  else
    if decide (cs.head? = some '/') then
      '/' :: (if decide (cs.getLast? = some '/') then posixBody cs ++ ['/'] else posixBody cs)
    else
      (if decide (cs.getLast? = some '/') then posixBody cs ++ ['/'] else posixBody cs)

/-- `normalizePath` (`validateRuntimeBuild.ts` lines 422-426): backslashes to
slashes, posix-normalize, and reject normalizations that escape upward or are
absolute. -/
def normalizePath (filePath : String) : Option String :=
  let normalized := posixNormalize (filePath.data.map (fun c => if c = '\\' then '/' else c))
  if (['.', '.', '/'].isPrefixOf normalized) || (['/'].isPrefixOf normalized) then none
  else some (String.mk normalized)

theorem splitOnSlashGo_no_slash {acc : List Char} (hacc : '/' ∉ acc) :
    ∀ cs, ∀ s ∈ splitOnSlashGo acc cs, '/' ∉ s := by
  intro cs
  induction cs generalizing acc with
  | nil =>
    intro s hs
    simp only [splitOnSlashGo, List.mem_singleton] at hs
    simpa [hs] using hacc
  | cons c rest ih =>
    intro s hs
    simp only [splitOnSlashGo] at hs
    by_cases hc : c = '/'
    · rw [if_pos hc] at hs
      rcases List.mem_cons.mp hs with h | h
      · simpa [h] using hacc
      · exact ih (by simp) s h
    · rw [if_neg hc] at hs
      have hacc' : '/' ∉ c :: acc := by
        intro hm
        rcases List.mem_cons.mp hm with h | h
        · exact hc h.symm
        · exact hacc h
      exact ih hacc' s hs

/-- Every segment produced by the path splitter is slash-free. -/
theorem splitOnSlash_no_slash (cs : List Char) : ∀ s ∈ splitOnSlash cs, '/' ∉ s :=
  splitOnSlashGo_no_slash (by simp) cs

/-- The stack-shape invariant of segment resolution: the result is a run of
leading `..` segments followed by real segments that are non-empty, slash-free
and never `..`. -/
theorem normSegsGo_shape (allow : Bool) (segs : List (List Char))
    (hseg : ∀ s ∈ segs, '/' ∉ s) :
    ∀ (r : List (List Char)) (n : Nat),
      parentSeg ∉ r → (∀ s ∈ r, s ≠ [] ∧ '/' ∉ s) →
      ∃ n' r', normSegsGo allow (r ++ List.replicate n parentSeg) segs
          = List.replicate n' parentSeg ++ r'
        ∧ parentSeg ∉ r' ∧ (∀ s ∈ r', s ≠ [] ∧ '/' ∉ s) := by
  induction segs with
  | nil =>
    intro r n hnp hr
    refine ⟨n, r.reverse, ?_, by simpa using hnp, by simpa using hr⟩
    simp [normSegsGo, List.reverse_append, List.reverse_replicate]
  | cons seg rest ih =>
    intro r n hnp hr
    have hrest : ∀ s ∈ rest, '/' ∉ s := fun s hs => hseg s (List.mem_cons_of_mem seg hs)
    by_cases hskip : seg = [] ∨ seg = ['.']
    · have : normSegsGo allow (r ++ List.replicate n parentSeg) (seg :: rest)
          = normSegsGo allow (r ++ List.replicate n parentSeg) rest := by
        rw [normSegsGo.eq_def]
        simp only []
        rw [if_pos hskip]
      rw [this]
      exact ih hrest r n hnp hr
    · by_cases hpar : seg = parentSeg
      · cases r with
        | cons t r'' =>
          have htne : t ≠ parentSeg := fun he => hnp (he ▸ List.mem_cons_self t r'')
          have : normSegsGo allow ((t :: r'') ++ List.replicate n parentSeg) (seg :: rest)
              = normSegsGo allow (r'' ++ List.replicate n parentSeg) rest := by
            rw [normSegsGo.eq_def]
            simp only [List.cons_append]
            rw [if_neg hskip, if_pos hpar, if_neg htne]
          rw [this]
          exact ih hrest r'' n (fun hm => hnp (List.mem_cons_of_mem t hm))
            (fun s hs => hr s (List.mem_cons_of_mem t hs))
        | nil =>
          cases n with
          | zero =>
            by_cases hallow : allow = true
            · have : normSegsGo allow (([] : List (List Char)) ++ List.replicate 0 parentSeg) (seg :: rest)
                  = normSegsGo allow ([] ++ List.replicate 1 parentSeg) rest := by
                rw [normSegsGo.eq_def]
                simp only [List.nil_append, List.replicate]
                rw [if_neg hskip, if_pos hpar, if_pos hallow]
              rw [this]
              exact ih hrest [] 1 (by simp) (by simp)
            · have : normSegsGo allow (([] : List (List Char)) ++ List.replicate 0 parentSeg) (seg :: rest)
                  = normSegsGo allow ([] ++ List.replicate 0 parentSeg) rest := by
                rw [normSegsGo.eq_def]
                simp only [List.nil_append, List.replicate]
                rw [if_neg hskip, if_pos hpar, if_neg hallow]
              rw [this]
              exact ih hrest [] 0 (by simp) (by simp)
          | succ m =>
            have : normSegsGo allow (([] : List (List Char)) ++ List.replicate (m + 1) parentSeg) (seg :: rest)
                = normSegsGo allow ([] ++ List.replicate (m + 2) parentSeg) rest := by
              rw [normSegsGo.eq_def]
              simp only [List.nil_append, List.replicate]
              rw [if_neg hskip, if_pos hpar]
              simp
            rw [this]
            exact ih hrest [] (m + 2) (by simp) (by simp)
      · have hpush : normSegsGo allow (r ++ List.replicate n parentSeg) (seg :: rest)
            = normSegsGo allow ((seg :: r) ++ List.replicate n parentSeg) rest := by
          rw [normSegsGo.eq_def]
          simp only []
          rw [if_neg hskip, if_neg hpar]
          simp [List.cons_append]
        rw [hpush]
        have hsegne : seg ≠ [] := fun he => hskip (Or.inl he)
        have hsegns : '/' ∉ seg := hseg seg (List.mem_cons_self seg rest)
        exact ih hrest (seg :: r) n
          (by intro hm
              rcases List.mem_cons.mp hm with h | h
              · exact hpar h.symm
              · exact hnp h)
          (by intro s hs
              rcases List.mem_cons.mp hs with h | h
              · exact h ▸ ⟨hsegne, hsegns⟩
              · exact hr s h)

theorem splitOnSlashGo_clean (s : List Char) (h : '/' ∉ s) :
    ∀ acc, splitOnSlashGo acc s = [acc.reverse ++ s] := by
  induction s with
  | nil => intro acc; simp [splitOnSlashGo]
  | cons c s' ih =>
    intro acc
    have hc : c ≠ '/' := fun he => h (he ▸ List.mem_cons_self c s')
    simp only [splitOnSlashGo]
    rw [if_neg (fun he => hc he)]
    rw [ih (fun hm => h (List.mem_cons_of_mem c hm)) (c :: acc)]
    simp

theorem splitOnSlashGo_break (s : List Char) (h : '/' ∉ s) :
    ∀ acc X, splitOnSlashGo acc (s ++ '/' :: X) = (acc.reverse ++ s) :: splitOnSlashGo [] X := by
  induction s with
  | nil =>
    intro acc X
    simp [splitOnSlashGo]
  | cons c s' ih =>
    intro acc X
    have hc : c ≠ '/' := fun he => h (he ▸ List.mem_cons_self c s')
    simp only [List.cons_append, splitOnSlashGo]
    rw [if_neg (fun he => hc he)]
    simp only [List.append_eq]
    rw [ih (fun hm => h (List.mem_cons_of_mem c hm)) (c :: acc) X]
    simp

/-- Splitting inverts joining for non-empty slash-free segment lists. -/
theorem splitOnSlash_joinSegs (r : List (List Char)) (hne : r ≠ [])
    (hns : ∀ s ∈ r, '/' ∉ s) : splitOnSlash (joinSegs r) = r := by
  induction r with
  | nil => exact absurd rfl hne
  | cons s r' ih =>
    cases r' with
    | nil =>
      show splitOnSlashGo [] (joinSegs [s]) = [s]
      rw [show joinSegs [s] = s from rfl]
      rw [splitOnSlashGo_clean s (hns s (by simp)) []]
      simp
    | cons t r'' =>
      show splitOnSlashGo [] (joinSegs (s :: t :: r'')) = s :: t :: r''
      rw [show joinSegs (s :: t :: r'') = s ++ '/' :: joinSegs (t :: r'') from rfl]
      rw [splitOnSlashGo_break s (hns s (by simp)) [] (joinSegs (t :: r''))]
      rw [show splitOnSlashGo ([] : List Char) (joinSegs (t :: r'')) = splitOnSlash (joinSegs (t :: r'')) from rfl]
      rw [ih (by simp) (fun x hx => hns x (List.mem_cons_of_mem s hx))]
      simp

/-- Splitting a joined segment list with a trailing separator appends one
empty segment. -/
theorem splitOnSlash_joinSegs_trailing (r : List (List Char)) (hne : r ≠ [])
    (hns : ∀ s ∈ r, '/' ∉ s) : splitOnSlash (joinSegs r ++ ['/']) = r ++ [[]] := by
  induction r with
  | nil => exact absurd rfl hne
  | cons s r' ih =>
    cases r' with
    | nil =>
      show splitOnSlashGo [] (joinSegs [s] ++ ['/']) = [s, []]
      rw [show joinSegs [s] = s from rfl]
      rw [show s ++ ['/'] = s ++ '/' :: [] from rfl]
      rw [splitOnSlashGo_break s (hns s (by simp)) [] []]
      simp [splitOnSlashGo]
    | cons t r'' =>
      show splitOnSlashGo [] (joinSegs (s :: t :: r'') ++ ['/']) = (s :: t :: r'') ++ [[]]
      rw [show joinSegs (s :: t :: r'') = s ++ '/' :: joinSegs (t :: r'') from rfl]
      rw [show (s ++ '/' :: joinSegs (t :: r'')) ++ ['/'] = s ++ '/' :: (joinSegs (t :: r'') ++ ['/']) by simp]
      rw [splitOnSlashGo_break s (hns s (by simp)) [] (joinSegs (t :: r'') ++ ['/'])]
      rw [show splitOnSlashGo ([] : List Char) (joinSegs (t :: r'') ++ ['/'])
            = splitOnSlash (joinSegs (t :: r'') ++ ['/']) from rfl]
      rw [ih (by simp) (fun x hx => hns x (List.mem_cons_of_mem s hx))]
      simp

theorem joinSegs_two_head (x : List Char) (xs : List (List Char)) :
    joinSegs (parentSeg :: x :: xs) = '.' :: '.' :: '/' :: joinSegs (x :: xs) := rfl

/-- Claim C3, amended.  The pipeline does not sanitize emitted `GeneratedFile`
paths (see `emitted_path_traversal_counterexample`); the traversal guarantee
holds only where files are materialized for the runtime build: every path
accepted by `validateRuntimeBuild`'s `normalizePath` guard is relative (no
leading `/`), does not start with `../`, and — with the single exception of
the bare path `..` — contains no `..` segment at all after normalization. -/
theorem normalizePath_no_traversal (p q : String) (h : normalizePath p = some q) :
    (['/'].isPrefixOf q.data) = false
    ∧ (['.', '.', '/'].isPrefixOf q.data) = false
    ∧ (q.data = parentSeg ∨ ∀ s ∈ splitOnSlash q.data, s ≠ parentSeg) := by
  unfold normalizePath at h
  set cs := p.data.map (fun c => if c = '\\' then '/' else c) with hcs
  by_cases hrej :
      ((['.', '.', '/'].isPrefixOf (posixNormalize cs)) || (['/'].isPrefixOf (posixNormalize cs))) = true
  · rw [if_pos hrej] at h
    exact absurd h (by simp)
  · rw [if_neg hrej] at h
    have hq : q.data = posixNormalize cs := by
      have h2 : String.mk (posixNormalize cs) = q := by
        simpa using h
      rw [← h2]
    rw [Bool.or_eq_true, not_or] at hrej
    have hrej1 : (['.', '.', '/'].isPrefixOf (posixNormalize cs)) = false :=
      Bool.eq_false_iff.mpr hrej.1
    have hrej2 : (['/'].isPrefixOf (posixNormalize cs)) = false :=
      Bool.eq_false_iff.mpr hrej.2
    refine ⟨hq ▸ hrej2, hq ▸ hrej1, ?_⟩
    obtain ⟨n', r', heq, hnp, hprops⟩ :=
      (by
        have hsh := normSegsGo_shape (!(decide (cs.head? = some '/'))) (splitOnSlash cs)
          (splitOnSlash_no_slash cs) [] 0 (by simp) (by simp)
        simpa using hsh :
        ∃ n' r', normSegsGo (!(decide (cs.head? = some '/'))) [] (splitOnSlash cs)
            = List.replicate n' parentSeg ++ r'
          ∧ parentSeg ∉ r' ∧ (∀ s ∈ r', s ≠ [] ∧ '/' ∉ s))
    have hB : posixBody cs = joinSegs (List.replicate n' parentSeg ++ r') := by
      unfold posixBody
      rw [heq]
    rw [hq]
    unfold posixNormalize at hrej1 hrej2 ⊢
    rw [hB] at hrej1 hrej2 ⊢
    by_cases hBnil : joinSegs (List.replicate n' parentSeg ++ r') = []
    · rw [if_pos hBnil] at hrej2 ⊢
      by_cases hAbs : decide (cs.head? = some '/') = true
      · rw [if_pos hAbs] at hrej2
        simp [List.isPrefixOf] at hrej2
      · rw [if_neg hAbs] at hrej2 ⊢
        by_cases hTrail : decide (cs.getLast? = some '/') = true
        · rw [if_pos hTrail]
          right
          decide
        · rw [if_neg hTrail]
          right
          decide
    · rw [if_neg hBnil] at hrej1 hrej2 ⊢
      by_cases hAbs : decide (cs.head? = some '/') = true
      · rw [if_pos hAbs] at hrej2
        simp [List.isPrefixOf] at hrej2
      · rw [if_neg hAbs] at hrej1 hrej2 ⊢
        rcases n' with _ | n''
        · -- no leading `..` at all: the result splits into `..`-free segments
          have hrne : r' ≠ [] := by
            intro he
            rw [he] at hBnil
            exact hBnil (by simp [joinSegs])
          have hns : ∀ s ∈ r', '/' ∉ s := fun s hs => (hprops s hs).2
          simp only [List.replicate, List.nil_append] at hBnil ⊢
          by_cases hTrail : decide (cs.getLast? = some '/') = true
          · rw [if_pos hTrail]
            right
            rw [splitOnSlash_joinSegs_trailing r' hrne hns]
            intro s hs
            rcases List.mem_append.mp hs with hmem | hmem
            · exact fun he => hnp (he ▸ hmem)
            · rw [List.mem_singleton.mp hmem]
              decide
          · rw [if_neg hTrail]
            right
            rw [splitOnSlash_joinSegs r' hrne hns]
            exact fun s hs he => hnp (he ▸ hs)
        · rcases n'' with _ | m
          · -- exactly one leading `..`
            cases r' with
            | nil =>
              by_cases hTrail : decide (cs.getLast? = some '/') = true
              · rw [if_pos hTrail] at hrej1
                exact absurd hrej1 (by decide)
              · rw [if_neg hTrail]
                left
                rfl
            | cons t r'' =>
              have hBval : joinSegs (List.replicate 1 parentSeg ++ (t :: r''))
                  = '.' :: '.' :: '/' :: joinSegs (t :: r'') := rfl
              rw [hBval] at hrej1
              by_cases hTrail : decide (cs.getLast? = some '/') = true
              · rw [if_pos hTrail] at hrej1
                simp [List.isPrefixOf] at hrej1
              · rw [if_neg hTrail] at hrej1
                simp [List.isPrefixOf] at hrej1
          · -- two or more leading `..`
            have hBval : joinSegs (List.replicate (m + 2) parentSeg ++ r')
                = '.' :: '.' :: '/' :: joinSegs (List.replicate (m + 1) parentSeg ++ r') := rfl
            rw [hBval] at hrej1
            by_cases hTrail : decide (cs.getLast? = some '/') = true
            · rw [if_pos hTrail] at hrej1
              simp [List.isPrefixOf] at hrej1
            · rw [if_neg hTrail] at hrej1
              simp [List.isPrefixOf] at hrej1

/-- Witness for the amended C3: a path with an interior `..` is accepted only
after full resolution, with no `..` left and no leading slash. -/
theorem normalizePath_no_traversal_witness :
    (['/'].isPrefixOf (String.data "a/c")) = false
    ∧ (['.', '.', '/'].isPrefixOf (String.data "a/c")) = false
    ∧ (String.data "a/c" = parentSeg ∨ ∀ s ∈ splitOnSlash (String.data "a/c"), s ≠ parentSeg) :=
  normalizePath_no_traversal "a/b/../c" "a/c" (by decide)

/-! ## JSON model

`packagePolicy.ts` and `validateRuntimeBuild.ts` read `package.json` with
`JSON.parse` and write it with `JSON.stringify(obj, null, 2)`.  The subset of
JSON those manifests use — objects, strings, integers, booleans, `null` — is
embedded with an executable printer and parser (arrays and floats never occur
in the values this development evaluates; the parser rejects them, where
`JSON.parse` would accept). -/

inductive JVal where
  | jnull
  | jbool (b : Bool)
  | jnum (n : Int)
  | jstr (s : String)
  | jobj (fields : List (String × JVal))
deriving Repr

/-- Escapes of `JSON.stringify` for the characters our strings use. -/
def jsonEscapeChar (c : Char) : List Char :=
  if c = '"' then ['\\', '"']
  else if c = '\\' then ['\\', '\\']
  else if c = '\n' then ['\\', 'n']
  else if c = '\t' then ['\\', 't']
  else if c = '\r' then ['\\', 'r']
  else [c]

/-- A JSON string literal with quotes and escapes. -/
def jsonQuote (s : String) : String :=
  String.mk ('"' :: (s.data.map jsonEscapeChar).flatten ++ ['"'])

/-- Indentation used by `JSON.stringify(v, null, 2)`. -/
def jIndent (n : Nat) : String := String.mk (List.replicate (2 * n) ' ')

mutual

/-- `JSON.stringify(v, null, 2)` at nesting level `lvl`. -/
def jStringify (lvl : Nat) : JVal → String
  | JVal.jnull => "null"
  | JVal.jbool true => "true"
  | JVal.jbool false => "false"
  | JVal.jnum n => toString n
  | JVal.jstr s => jsonQuote s
  | JVal.jobj [] => "\x7b\x7d"
  | JVal.jobj (f :: fs) =>
    "\x7b\n" ++ jStringifyFields (lvl + 1) (f :: fs) ++ "\n" ++ jIndent lvl ++ "\x7d"

def jStringifyFields (lvl : Nat) : List (String × JVal) → String
  | [] => ""
  | [(k, v)] => jIndent lvl ++ jsonQuote k ++ ": " ++ jStringify lvl v
  | (k, v) :: f :: fs =>
    jIndent lvl ++ jsonQuote k ++ ": " ++ jStringify lvl v ++ ",\n"
      ++ jStringifyFields lvl (f :: fs)

end

/-- Whitespace skipping of the JSON parser. -/
def jSkipWs (cs : List Char) : List Char := cs.dropWhile isJsWs

/-- The body of a JSON string literal after the opening quote. -/
def jParseStringBody (acc : List Char) : List Char → Option (String × List Char)
  | [] => none
  | '"' :: rest => some (String.mk acc.reverse, rest)
  | '\\' :: '"' :: rest => jParseStringBody ('"' :: acc) rest
  | '\\' :: '\\' :: rest => jParseStringBody ('\\' :: acc) rest
  | '\\' :: '/' :: rest => jParseStringBody ('/' :: acc) rest
  | '\\' :: 'n' :: rest => jParseStringBody ('\n' :: acc) rest
  | '\\' :: 't' :: rest => jParseStringBody ('\t' :: acc) rest
  | '\\' :: 'r' :: rest => jParseStringBody ('\r' :: acc) rest
  | '\\' :: _ :: _ => none
  | ['\\'] => none
  | c :: rest => jParseStringBody (c :: acc) rest

/-- A run of decimal digits. -/
def jParseDigits (acc : Nat) : List Char → Nat × List Char
  | [] => (acc, [])
  | c :: rest =>
    if c.isDigit then jParseDigits (acc * 10 + (c.toNat - 48)) rest
    else (acc, c :: rest)

/-- A JSON integer (floats are outside the embedded subset). -/
def jParseNum (cs : List Char) : Option (Int × List Char) :=
  let (neg, cs1) := match cs with
    | '-' :: rest => (true, rest)
    | _ => (false, cs)
  match cs1 with
  | c :: _ =>
    if c.isDigit then
      let (n, rest) := jParseDigits 0 cs1
      match rest with
      | '.' :: _ => none
      | 'e' :: _ => none
      | 'E' :: _ => none
      | _ => some (if neg then -(n : Int) else (n : Int), rest)
    else none
  | [] => none

mutual

def jParseVal : Nat → List Char → Option (JVal × List Char)
  | 0, _ => none
  | Nat.succ fuel, cs0 =>
    match jSkipWs cs0 with
    | 'n' :: 'u' :: 'l' :: 'l' :: rest => some (JVal.jnull, rest)
    | 't' :: 'r' :: 'u' :: 'e' :: rest => some (JVal.jbool true, rest)
    | 'f' :: 'a' :: 'l' :: 's' :: 'e' :: rest => some (JVal.jbool false, rest)
    | '"' :: rest =>
      match jParseStringBody [] rest with
      | some (s, r) => some (JVal.jstr s, r)
      | none => none
    | c :: rest =>
      if c = Char.ofNat 123 then
        match jSkipWs rest with
        | c2 :: rest2 =>
          if c2 = Char.ofNat 125 then some (JVal.jobj [], rest2)
          else
            match jParseFields fuel (c2 :: rest2) with
            | some (fs, r) => some (JVal.jobj fs, r)
            | none => none
        | [] => none
      else if c = '-' || c.isDigit then
        match jParseNum (c :: rest) with
        | some (n, r) => some (JVal.jnum n, r)
        | none => none
      else none
    | [] => none

def jParseFields : Nat → List Char → Option (List (String × JVal) × List Char)
  | 0, _ => none
  | Nat.succ fuel, cs0 =>
    match jSkipWs cs0 with
    | '"' :: rest =>
      match jParseStringBody [] rest with
      | some (k, r1) =>
        match jSkipWs r1 with
        | ':' :: r2 =>
          match jParseVal fuel r2 with
          | some (v, r3) =>
            match jSkipWs r3 with
            | ',' :: r4 =>
              match jParseFields fuel r4 with
              | some (fs, r5) => some ((k, v) :: fs, r5)
              | none => none
            | c :: r4 =>
              if c = Char.ofNat 125 then some ([(k, v)], r4)
              else none
            | [] => none
          | none => none
        | _ => none
      | none => none
    | _ => none

end

/-- `JSON.parse` on the embedded subset: one value, then only trailing
whitespace. -/
def jsonParse (s : String) : Option JVal :=
  match jParseVal (s.length + 1) s.data with
  | some (v, rest) => if jSkipWs rest = [] then some v else none
  | none => none

/-- Property access `obj.k` on a parsed JSON value (`undefined` is `none`). -/
def jGetField (v : JVal) (k : String) : Option JVal :=
  match v with
  | JVal.jobj fs => (fs.find? (fun kv => kv.1 = k)).map (fun kv => kv.2)
  | _ => none

/-! ## Package policy configuration (`src/config/approvedPackages.ts`) -/

/-- `HEAVY_PACKAGES` (approvedPackages.ts lines 3-19). -/
def HEAVY_PACKAGES : List String :=
  ["monaco-editor", "@monaco-editor/react", "@mui/x-data-grid", "ag-grid-react",
   "ag-grid-community", "handsontable", "@handsontable/react", "react-data-grid",
   "fabric", "konva", "react-konva", "three", "@react-three/fiber",
   "@react-three/drei", "pptxgenjs"]

/-- `PACKAGE_ALIASES` (approvedPackages.ts lines 21-25). -/
def PACKAGE_ALIASES : List (String × String) :=
  [("react-table", "@tanstack/react-table"), ("chartjs", "chart.js"),
   ("react-chartjs", "react-chartjs-2")]

/-- `APPROVED_PACKAGES` (approvedPackages.ts lines 27-92). -/
def APPROVED_PACKAGES : List String :=
  ["react", "react-dom", "react-icons", "react-router-dom", "zustand",
   "framer-motion", "clsx", "tailwind-merge", "lucide-react", "date-fns",
   "dayjs", "lodash", "zod", "axios", "@tanstack/react-query",
   "@tanstack/react-table", "chart.js", "react-chartjs-2", "recharts", "d3",
   "@mui/material", "@mui/icons-material", "@emotion/react", "@emotion/styled",
   "antd", "@chakra-ui/react", "@headlessui/react", "@heroicons/react",
   "@floating-ui/react", "@dnd-kit/core", "@dnd-kit/sortable",
   "react-hook-form", "@hookform/resolvers", "yup", "react-select",
   "react-virtualized", "react-window", "ag-grid-react", "ag-grid-community",
   "@mui/x-data-grid", "react-data-grid", "handsontable", "@handsontable/react",
   "react-pdf", "pdfjs-dist", "quill", "react-quill", "@tiptap/react",
   "@tiptap/starter-kit", "slate", "slate-react", "fabric", "konva",
   "react-konva", "three", "@react-three/fiber", "@react-three/drei",
   "tailwindcss", "@tailwindcss/postcss", "postcss", "autoprefixer", "vite",
   "@vitejs/plugin-react", "typescript"]

/-- `PackageManifest` (`src/types/index.ts`).  Script values are arbitrary
JSON: the merge spreads whatever the generated `package.json` held. -/
structure PackageManifest where
  framework : OutputStack
  entry : String
  scripts : List (String × JVal)
  dependencies : List (String × String)
  devDependencies : List (String × String)
deriving Repr

/-- `REACT_FULL_MANIFEST` (approvedPackages.ts lines 94-113). -/
def REACT_FULL_MANIFEST : PackageManifest :=
  { framework := OutputStack.reactTailwind
    entry := "/src/main.tsx"
    scripts := [("dev", JVal.jstr "vite"), ("build", JVal.jstr "vite build"),
                ("preview", JVal.jstr "vite preview")]
    dependencies := [("react", "^19.2.0"), ("react-dom", "^19.2.0")]
    devDependencies := [("typescript", "^5.8.0"), ("vite", "^5.4.0"),
                        ("@vitejs/plugin-react", "^4.3.0"), ("tailwindcss", "^4.1.0"),
                        ("@tailwindcss/postcss", "^4.1.0")] }

/-- `VANILLA_FULL_MANIFEST` (approvedPackages.ts lines 115-123). -/
def VANILLA_FULL_MANIFEST : PackageManifest :=
  { framework := OutputStack.vanilla
    entry := "/index.html"
    scripts := [("dev", JVal.jstr "npx serve .")]
    dependencies := []
    devDependencies := [] }

/-- `getBaseManifest` (approvedPackages.ts lines 125-141); the source shallow
clones the chosen manifest, which in this immutable model is the identity. -/
def getBaseManifest (outputStack : OutputStack) : PackageManifest :=
  if outputStack = OutputStack.reactTailwind then REACT_FULL_MANIFEST
  else VANILLA_FULL_MANIFEST

/-! ## JavaScript object merging

JavaScript object spread `{...a, ...b}` keeps `a`'s key order, updates values
in place and appends `b`'s new keys in order; property assignment `o[k] = v`
behaves the same way. -/

/-- `o[k] = v` on an insertion-ordered object. -/
def objUpsert {α : Type} (m : List (String × α)) (k : String) (v : α) :
    List (String × α) :=
  if m.any (fun kv => kv.1 = k) then
    m.map (fun kv => if kv.1 = k then (k, v) else kv)
  else m ++ [(k, v)]

/-- `{...a, ...b}` on insertion-ordered objects. -/
def objMerge {α : Type} (a b : List (String × α)) : List (String × α) :=
  b.foldl (fun acc kv => objUpsert acc kv.1 kv.2) a

/-! ## Package policy (`src/services/generation/pipeline/packagePolicy.ts`)

`process.env.FLASHBUILD_STRICT_PACKAGE_ALLOWLIST === '1'` is threaded as the
explicit `strictAllowlist` argument. -/

/-- `languageFromPath` (packagePolicy.ts lines 24-36). -/
def languageFromPath (path : String) : String :=
  let ext := lowerS ((splitOnChar '.' path).getLastD "")
  (([("html", "html"), ("css", "css"), ("js", "javascript"), ("jsx", "jsx"),
     ("ts", "typescript"), ("tsx", "tsx"), ("json", "json")] :
      List (String × String)).lookup ext).getD "plaintext"

/-- `upsertFile` (packagePolicy.ts lines 38-47): replace in place or append. -/
def upsertFile (files : List GeneratedFile) (path content : String) :
    List GeneratedFile :=
  let nextFile : GeneratedFile :=
    { path := path, content := content, language := languageFromPath path }
  if files.any (fun f => f.path = path) then
    files.map (fun f => if f.path = path then nextFile else f)
  else files ++ [nextFile]

/-- `parsePackageJson` (packagePolicy.ts lines 49-57). -/
def parsePackageJson (files : List GeneratedFile) : Option JVal :=
  match files.find? (fun f => f.path = "package.json") with
  | none => none
  | some pkg => jsonParse pkg.content

/-- `sanitizeDependencyMap` (packagePolicy.ts lines 59-82): alias, check the
allowlist, block or retain; returns the sanitized map together with the names
appended to `blocked` and `retainedUnlisted`. -/
def sanitizeDependencyMap (deps : Option JVal) (strictAllowlist : Bool) :
    List (String × String) × List String × List String :=
  match deps with
  | some (JVal.jobj entries) =>
    entries.foldl
      (fun acc kv =>
        match kv.2 with
        | JVal.jstr version =>
          let aliased := ((PACKAGE_ALIASES.find? (fun a => a.1 = kv.1)).map
            (fun a => a.2)).getD kv.1
          let isKnown := APPROVED_PACKAGES.contains aliased
            || ("@types/".data).isPrefixOf aliased.data
          if strictAllowlist && !isKnown then
            (acc.1, acc.2.1 ++ [kv.1], acc.2.2)
          else if !strictAllowlist && !isKnown then
            (objUpsert acc.1 aliased version, acc.2.1, acc.2.2 ++ [aliased])
          else
            (objUpsert acc.1 aliased version, acc.2.1, acc.2.2)
        | _ => acc)
      ([], [], [])
  | _ => ([], [], [])

/-- `mergeManifest` (packagePolicy.ts lines 84-124): spread the base scripts
under the generated ones, merge sanitized dependency maps, and take a string
`entry` override. -/
def mergeManifest (base : PackageManifest) (fromPackageJson : Option JVal)
    (strictAllowlist : Bool) : PackageManifest × List String × List String :=
  let scriptsFrom : List (String × JVal) :=
    match fromPackageJson.bind (fun j => jGetField j "scripts") with
    | some (JVal.jobj fs) => fs
    | _ => []
  let scripts := objMerge base.scripts scriptsFrom
  let depsRes := sanitizeDependencyMap
    (fromPackageJson.bind (fun j => jGetField j "dependencies")) strictAllowlist
  let devRes := sanitizeDependencyMap
    (fromPackageJson.bind (fun j => jGetField j "devDependencies")) strictAllowlist
  let dependencies := objMerge base.dependencies depsRes.1
  let devDependencies := objMerge base.devDependencies devRes.1
  let entry := match fromPackageJson.bind (fun j => jGetField j "entry") with
    | some (JVal.jstr s) => s
    | _ => base.entry
  ({ framework := base.framework, entry := entry, scripts := scripts,
     dependencies := dependencies, devDependencies := devDependencies },
   depsRes.2.1 ++ devRes.2.1, depsRes.2.2 ++ devRes.2.2)

/-- `normalizeManifestForStack` (packagePolicy.ts lines 126-148): pin the core
react-tailwind toolchain over whatever was generated. -/
def normalizeManifestForStack (manifest : PackageManifest)
    (outputStack : OutputStack) : PackageManifest :=
  if outputStack ≠ OutputStack.reactTailwind then manifest
  else
    let base := getBaseManifest OutputStack.reactTailwind
    { framework := manifest.framework
      entry := base.entry
      scripts := objMerge manifest.scripts base.scripts
      dependencies := objMerge manifest.dependencies base.dependencies
      devDependencies := objMerge manifest.devDependencies base.devDependencies }

/-! ## Regex scanners used by the policy enforcer

Each regex is an alternation of literal runs separated by `\s*`/`\s+`; since
every literal run begins with a non-whitespace character, greedy whitespace
matching is maximal-munch with no backtracking.  Case-insensitive (`/i`)
regexes are matched against the lower-cased text. -/

/-- One alternation-free regex: literal runs and whitespace runs. -/
inductive RegexTok where
  | lit (s : List Char)
  | ws

/-- Match a token sequence starting exactly at the front of the text. -/
def matchToksAt : List RegexTok → List Char → Bool
  | [], _ => true
  | RegexTok.lit l :: ps, cs => l.isPrefixOf cs && matchToksAt ps (cs.drop l.length)
  | RegexTok.ws :: ps, cs => matchToksAt ps (cs.dropWhile isJsWs)

/-- `RegExp.test`: does the token sequence match anywhere in the text? -/
def testToks (ps : List RegexTok) : List Char → Bool
  | [] => matchToksAt ps []
  | c :: rest => matchToksAt ps (c :: rest) || testToks ps rest

/-- Lower-case a character list (ASCII, as all scanned text is). -/
def lowerL (cs : List Char) : List Char := cs.map Char.toLower

/-- `/(overflow-x\s*:\s*hidden|max-width\s*:\s*100%|minmax\()/i` over the
corpus (packagePolicy.ts line 379 and elsewhere). -/
def testOverflowGuardFull (cs : List Char) : Bool :=
  let l := lowerL cs
  testToks [RegexTok.lit "overflow-x".data, RegexTok.ws, RegexTok.lit ":".data,
            RegexTok.ws, RegexTok.lit "hidden".data] l
  || testToks [RegexTok.lit "max-width".data, RegexTok.ws, RegexTok.lit ":".data,
               RegexTok.ws, RegexTok.lit "100%".data] l
  || containsSeq "minmax(".data l

/-- `/(overflow-x\s*:\s*hidden|max-width\s*:\s*100%)/i`, the guard test of
`withOverflowGuard` (packagePolicy.ts line 391) — no `minmax(` alternative. -/
def testOverflowGuardPair (cs : List Char) : Bool :=
  let l := lowerL cs
  testToks [RegexTok.lit "overflow-x".data, RegexTok.ws, RegexTok.lit ":".data,
            RegexTok.ws, RegexTok.lit "hidden".data] l
  || testToks [RegexTok.lit "max-width".data, RegexTok.ws, RegexTok.lit ":".data,
               RegexTok.ws, RegexTok.lit "100%".data] l

/-- The word characters of the regex metacharacter `\w`. -/
def isWordChar (c : Char) : Bool := c.isAlphanum || c = '_'

/-- Does one of `\b(sm:|md:|lg:|xl:|2xl:)\b` match exactly here, given the
previous character?  The leading boundary needs a non-word (or absent)
previous character; the trailing boundary after `:` needs a word character
next. -/
def utilityBreakpointAt (prev : Option Char) (cs : List Char) : Bool :=
  (["sm:", "md:", "lg:", "xl:", "2xl:"] : List String).any (fun alt =>
    alt.data.isPrefixOf cs
    && (match prev with
        | none => true
        | some pc => !(isWordChar pc))
    && (match (cs.drop alt.data.length).head? with
        | some nc => isWordChar nc
        | none => false))

def hasUtilityBreakpointGo (prev : Option Char) : List Char → Bool
  | [] => false
  | c :: rest => utilityBreakpointAt prev (c :: rest) || hasUtilityBreakpointGo (some c) rest

/-- `/\b(sm:|md:|lg:|xl:|2xl:)\b/.test(corpus)` (case-sensitive). -/
def hasUtilityBreakpoint (cs : List Char) : Bool := hasUtilityBreakpointGo none cs

/-- `/@media\s*\(/` (case-sensitive variant, packagePolicy.ts line 387). -/
def testMediaOpen (cs : List Char) : Bool :=
  testToks [RegexTok.lit "@media".data, RegexTok.ws, RegexTok.lit "(".data] cs

/-- `/@media\s*\(/i` (case-insensitive variant, packagePolicy.ts line 510). -/
def testMediaOpenCI (cs : List Char) : Bool := testMediaOpen (lowerL cs)

/-- `/@media\s*\(\s*min-width\s*:\s*768px\s*\)/i`-style test for a concrete
pixel width (packagePolicy.ts lines 412-413). -/
def testMinWidthMedia (px : String) (cs : List Char) : Bool :=
  testToks [RegexTok.lit "@media".data, RegexTok.ws, RegexTok.lit "(".data,
            RegexTok.ws, RegexTok.lit "min-width".data, RegexTok.ws,
            RegexTok.lit ":".data, RegexTok.ws, RegexTok.lit (px.data ++ "px".data),
            RegexTok.ws, RegexTok.lit ")".data] (lowerL cs)

/-- `/<meta[^>]*name=["']viewport["'][^>]*>/i`: some `<meta` occurrence whose
text up to the first following `>` carries a quoted `name=viewport`. -/
def hasViewportMetaGo : List Char → Bool
  | [] => false
  | c :: rest =>
    (("<meta".data).isPrefixOf (c :: rest)
      && (match untilSeq ['>'] [] ((c :: rest).drop 5) with
          | some (seg, _) =>
            containsSeq ("name=\"viewport\"".data) seg
              || containsSeq ("name=\x27viewport\x27".data) seg
          | none => false))
    || hasViewportMetaGo rest

/-- Viewport meta test over the lower-cased document. -/
def hasViewportMeta (html : String) : Bool := hasViewportMetaGo (lowerL html.data)

/-! ## Scaffolding and responsive guards (`packagePolicy.ts`) -/

/-- `RuntimeHint` (`src/types/index.ts`). -/
structure RuntimeHint where
  preferredRuntime : PreviewRuntimeMode
  fallbackRuntime : Option PreviewRuntimeMode
  reason : String
  complexityScore : Nat
deriving Repr, DecidableEq

/-- `ResponsiveReport` (`src/types/index.ts`). -/
structure ResponsiveReport where
  passed : Bool
  warnings : List String
  checkedViewports : List Nat
deriving Repr, DecidableEq

/-- `PackagePolicyResult` (packagePolicy.ts lines 15-22). -/
structure PackagePolicyResult where
  files : List GeneratedFile
  manifest : PackageManifest
  blockedPackages : List String
  notes : List String
  runtimeHint : RuntimeHint
  responsiveReport : ResponsiveReport
deriving Repr

/-- The react `src/main.tsx` scaffold (packagePolicy.ts lines 155-165). -/
def scaffoldMainTsx : String :=
  "import React from \x27react\x27;\nimport ReactDOM from \x27react-dom/client\x27;\nimport App from \x27./App\x27;\nimport \x27./styles.css\x27;\n\nReactDOM.createRoot(document.getElementById(\x27root\x27)!).render(\n  <React.StrictMode>\n    <App />\n  </React.StrictMode>\n);\n"

/-- The react `src/App.tsx` scaffold (packagePolicy.ts lines 170-180). -/
def scaffoldAppTsx : String :=
  "export default function App() \x7b\n  return (\n    <main className=\"min-h-screen bg-slate-950 text-slate-100 p-6\">\n      <div className=\"mx-auto max-w-5xl rounded-2xl border border-slate-800 bg-slate-900 p-6\">\n        <h1 className=\"text-2xl font-bold tracking-tight\">Generated App</h1>\n        <p className=\"mt-2 text-slate-400\">The generator will replace this with your requested UI.</p>\n      </div>\n    </main>\n  );\n\x7d\n"

/-- The react `src/styles.css` scaffold (packagePolicy.ts lines 185-195). -/
def scaffoldStylesCss : String :=
  "@import \"tailwindcss\";\n\n:root \x7b\n  color-scheme: dark;\n\x7d\n\nbody \x7b\n  margin: 0;\n  font-family: Inter, ui-sans-serif, system-ui, -apple-system, Segoe UI, Roboto, sans-serif;\n\x7d\n"

/-- The react `index.html` scaffold (packagePolicy.ts lines 200-212). -/
def scaffoldIndexHtmlReact : String :=
  "<!doctype html>\n<html lang=\"en\">\n  <head>\n    <meta charset=\"UTF-8\" />\n    <meta name=\"viewport\" content=\"width=device-width, initial-scale=1.0\" />\n    <title>Generated App</title>\n  </head>\n  <body>\n    <div id=\"root\"></div>\n    <script type=\"module\" src=\"/src/main.tsx\"></script>\n  </body>\n</html>\n"

/-- The `tailwind.config.js` scaffold (packagePolicy.ts lines 217-223). -/
def scaffoldTailwindConfig : String :=
  "/** @type \x7bimport(\x27tailwindcss\x27).Config\x7d */\nexport default \x7b\n  content: [\x27./index.html\x27, \x27./src/**/*.\x7bjs,ts,jsx,tsx\x7d\x27],\n  theme: \x7b extend: \x7b\x7d \x7d,\n  plugins: [],\n\x7d;\n"

/-- The `postcss.config.js` scaffold (packagePolicy.ts lines 228-233). -/
def scaffoldPostcssConfig : String :=
  "export default \x7b\n  plugins: \x7b\n    \x27@tailwindcss/postcss\x27: \x7b\x7d,\n  \x7d,\n\x7d;\n"

/-- The vanilla `index.html` scaffold (packagePolicy.ts lines 323-336). -/
def scaffoldIndexHtmlVanilla : String :=
  "<!doctype html>\n<html lang=\"en\">\n  <head>\n    <meta charset=\"UTF-8\" />\n    <meta name=\"viewport\" content=\"width=device-width, initial-scale=1.0\" />\n    <title>Generated App</title>\n    <link rel=\"stylesheet\" href=\"styles.css\" />\n  </head>\n  <body>\n    <main id=\"app\"></main>\n    <script src=\"app.js\"></script>\n  </body>\n</html>\n"

/-- The vanilla `styles.css` scaffold (packagePolicy.ts line 339). -/
def scaffoldStylesVanilla : String :=
  "body \x7b margin: 0; font-family: system-ui, sans-serif; \x7d"

/-- The vanilla `app.js` scaffold (packagePolicy.ts line 342). -/
def scaffoldAppJs : String :=
  "document.getElementById(\x27app\x27).textContent = \x27Generated app\x27;"

/-- The `package.json` written by the react scaffold (packagePolicy.ts lines
236-252): `JSON.stringify({...}, null, 2)` plus a newline. -/
def reactPackageJsonContent (manifest : PackageManifest) : String :=
  jStringify 0 (JVal.jobj
    [("name", JVal.jstr "generated-app"), ("private", JVal.jbool true),
     ("version", JVal.jstr "0.0.0"), ("type", JVal.jstr "module"),
     ("scripts", JVal.jobj manifest.scripts),
     ("dependencies", JVal.jobj (manifest.dependencies.map (fun kv => (kv.1, JVal.jstr kv.2)))),
     ("devDependencies", JVal.jobj (manifest.devDependencies.map (fun kv => (kv.1, JVal.jstr kv.2))))])
  ++ "\n"

/-- The `package.json` written by the vanilla scaffold (packagePolicy.ts lines
345-360): as the react one but without `"type": "module"`. -/
def vanillaPackageJsonContent (manifest : PackageManifest) : String :=
  jStringify 0 (JVal.jobj
    [("name", JVal.jstr "generated-app"), ("private", JVal.jbool true),
     ("version", JVal.jstr "0.0.0"),
     ("scripts", JVal.jobj manifest.scripts),
     ("dependencies", JVal.jobj (manifest.dependencies.map (fun kv => (kv.1, JVal.jstr kv.2)))),
     ("devDependencies", JVal.jobj (manifest.devDependencies.map (fun kv => (kv.1, JVal.jstr kv.2))))])
  ++ "\n"

/-- `ensureReactScaffold` (packagePolicy.ts lines 150-255). -/
def ensureReactScaffold (files : List GeneratedFile) (manifest : PackageManifest) :
    List GeneratedFile :=
  let next := files
  let next := if next.any (fun f => f.path = "src/main.tsx") then next
    else upsertFile next "src/main.tsx" scaffoldMainTsx
  let next := if next.any (fun f => f.path = "src/App.tsx") then next
    else upsertFile next "src/App.tsx" scaffoldAppTsx
  let next := if next.any (fun f => f.path = "src/styles.css") then next
    else upsertFile next "src/styles.css" scaffoldStylesCss
  let next := if next.any (fun f => f.path = "index.html") then next
    else upsertFile next "index.html" scaffoldIndexHtmlReact
  let next := if next.any (fun f => f.path = "tailwind.config.js") then next
    else upsertFile next "tailwind.config.js" scaffoldTailwindConfig
  let next := if next.any (fun f => f.path = "postcss.config.js") then next
    else upsertFile next "postcss.config.js" scaffoldPostcssConfig
  upsertFile next "package.json" (reactPackageJsonContent manifest)

/-- `ensureVanillaScaffold` (packagePolicy.ts lines 320-362). -/
def ensureVanillaScaffold (files : List GeneratedFile) (manifest : PackageManifest) :
    List GeneratedFile :=
  let next := files
  let next := if next.any (fun f => f.path = "index.html") then next
    else upsertFile next "index.html" scaffoldIndexHtmlVanilla
  let next := if next.any (fun f => f.path = "styles.css") then next
    else upsertFile next "styles.css" scaffoldStylesVanilla
  let next := if next.any (fun f => f.path = "app.js") then next
    else upsertFile next "app.js" scaffoldAppJs
  upsertFile next "package.json" (vanillaPackageJsonContent manifest)

/-- Trailing-whitespace trim (`String.prototype.trimEnd`). -/
def jsTrimEndL (cs : List Char) : List Char := (cs.reverse.dropWhile isJsWs).reverse

/-- `String.prototype.trimEnd`. -/
def jsTrimEnd (s : String) : String := String.mk (jsTrimEndL s.data)

/-- A single or double quote, the regex class `['"]`. -/
def isQuoteChar (c : Char) : Bool := c = '"' || c = Char.ofNat 39

/-- `/^@tailwind\s+(base|components|utilities);?$/i` on a trimmed line
(packagePolicy.ts line 261). -/
def lineIsTailwindDirective (trimmed : List Char) : Bool :=
  match dropPrefixL "@tailwind".data (lowerL trimmed) with
  | none => false
  | some rest =>
    (match rest.head? with
     | some c => isJsWs c
     | none => false)
    && ((["base", "components", "utilities"] : List String).any (fun w =>
      match dropPrefixL w.data (rest.dropWhile isJsWs) with
      | none => false
      | some r2 => r2 = [] || r2 = [';']))

/-- `/^@import\s+['"]tailwindcss\/(base|components|utilities)['"];?$/i` on a
trimmed line (packagePolicy.ts line 262). -/
def lineIsLegacyTailwindImport (trimmed : List Char) : Bool :=
  match dropPrefixL "@import".data (lowerL trimmed) with
  | none => false
  | some rest =>
    (match rest.head? with
     | some c => isJsWs c
     | none => false)
    && (match rest.dropWhile isJsWs with
        | q :: r1 =>
          isQuoteChar q
          && (match dropPrefixL "tailwindcss/".data r1 with
              | none => false
              | some r2 =>
                (["base", "components", "utilities"] : List String).any (fun w =>
                  match dropPrefixL w.data r2 with
                  | none => false
                  | some [] => false
                  | some (q2 :: r3) => isQuoteChar q2 && (r3 = [] || r3 = [';'])))
        | [] => false)

/-- `/^@import\s+['"]tailwindcss['"];?$/i` on a trimmed line
(packagePolicy.ts line 266). -/
def lineIsTailwindV4Import (trimmed : List Char) : Bool :=
  match dropPrefixL "@import".data (lowerL trimmed) with
  | none => false
  | some rest =>
    (match rest.head? with
     | some c => isJsWs c
     | none => false)
    && (match rest.dropWhile isJsWs with
        | q :: r1 =>
          isQuoteChar q
          && (match dropPrefixL "tailwindcss".data r1 with
              | none => false
              | some [] => false
              | some (q2 :: r3) => isQuoteChar q2 && (r3 = [] || r3 = [';']))
        | [] => false)

/-- `normalizeTailwindStyles` (packagePolicy.ts lines 257-275): drop legacy
directive/import lines, then prepend the v4 import unless some remaining line
already is it. -/
def normalizeTailwindStyles (content : String) : String :=
  let lines := splitOnChar '\n' content
  let cleaned := lines.filter (fun line =>
    let trimmed := jsTrimL line.data
    !(lineIsTailwindDirective trimmed) && !(lineIsLegacyTailwindImport trimmed))
  let hasV4Import := cleaned.any (fun line => lineIsTailwindV4Import (jsTrimL line.data))
  let body := jsTrim (joinSep "\n" cleaned)
  let pfx := if hasV4Import then "" else "@import \"tailwindcss\";"
  if body = "" then pfx ++ "\n"
  else pfx ++ "\n\n" ++ body ++ "\n"

/-- `ensureTailwindSyntax` (packagePolicy.ts lines 277-284). -/
def ensureTailwindSyntax (files : List GeneratedFile) (outputStack : OutputStack) :
    List GeneratedFile :=
  if outputStack ≠ OutputStack.reactTailwind then files
  else
    match files.find? (fun f => f.path = "src/styles.css") with
    | none => files
    | some target =>
      let normalized := normalizeTailwindStyles target.content
      if normalized = target.content then files
      else upsertFile files target.path normalized

/-- One match of `/module\.exports\s*=\s*/` starting here, returning the text
after the match. -/
def matchModuleExportsAt (cs : List Char) : Option (List Char) :=
  match dropPrefixL "module.exports".data cs with
  | none => none
  | some r1 =>
    match r1.dropWhile isJsWs with
    | '=' :: r3 => some (r3.dropWhile isJsWs)
    | _ => none

/-- Global replacement `content.replace(/module\.exports\s*=\s*/g, 'export
default ')` (fuelled scan; every step consumes at least one character). -/
def replaceModuleExportsGo : Nat → List Char → List Char
  | 0, cs => cs
  | Nat.succ _, [] => []
  | Nat.succ fuel, c :: rest =>
    match matchModuleExportsAt (c :: rest) with
    | some after => "export default ".data ++ replaceModuleExportsGo fuel after
    | none => c :: replaceModuleExportsGo fuel rest

/-- `/module\.exports\s*=/.test(content)` (packagePolicy.ts line 290). -/
def testModuleExports (cs : List Char) : Bool :=
  testToks [RegexTok.lit "module.exports".data, RegexTok.ws, RegexTok.lit "=".data] cs

/-- The `convert` closure of `normalizeEsmConfigFiles` (packagePolicy.ts lines
289-293). -/
def convertEsmConfig (content : String) : String :=
  if !(testModuleExports content.data) then content
  else
    let replaced := String.mk (replaceModuleExportsGo (content.data.length + 1) content.data)
    if (jsTrimEnd replaced).data.getLast? = some ';' then
      String.mk (jsTrimEnd replaced).data.dropLast
    else replaced

/-- One iteration of the config-conversion loop (packagePolicy.ts lines
295-302) for a fixed path. -/
def convertEsmConfigAt (files : List GeneratedFile) (path : String) :
    List GeneratedFile :=
  match files.find? (fun f => f.path = path) with
  | none => files
  | some file =>
    let normalized := convertEsmConfig file.content
    if normalized ≠ file.content then
      upsertFile files path (jsTrimEnd normalized ++ "\n")
    else files

/-- `normalizeEsmConfigFiles` (packagePolicy.ts lines 286-318): convert
CommonJS config syntax, then force a Tailwind-v4 PostCSS config. -/
def normalizeEsmConfigFiles (files : List GeneratedFile) (outputStack : OutputStack) :
    List GeneratedFile :=
  if outputStack ≠ OutputStack.reactTailwind then files
  else
    let next := convertEsmConfigAt (convertEsmConfigAt files "postcss.config.js") "tailwind.config.js"
    match next.find? (fun f => f.path = "postcss.config.js") with
    | none => next
    | some postcssFile =>
      if !(containsSeq "@tailwindcss/postcss".data postcssFile.content.data) then
        upsertFile next "postcss.config.js" scaffoldPostcssConfig
      else next

/-- `/\.(css|tsx|jsx|js|ts)$/i` on a file path. -/
def pathHasCodeExt (p : String) : Bool :=
  ([".css", ".tsx", ".jsx", ".js", ".ts"] : List String).any (fun e =>
    endsWithS (lowerS p) e)

/-- The joined contents of all style/script files, the corpus of the
responsive checks (packagePolicy.ts lines 374-379 and elsewhere). -/
def codeCorpus (files : List GeneratedFile) : String :=
  joinSep "\n" ((files.filter (fun f => pathHasCodeExt f.path)).map (fun f => f.content))

/-- `hasOverflowGuard` (packagePolicy.ts lines 374-380). -/
def hasOverflowGuard (files : List GeneratedFile) : Bool :=
  testOverflowGuardFull (codeCorpus files).data

/-- `hasBreakpointSignals` (packagePolicy.ts lines 382-388). -/
def hasBreakpointSignals (files : List GeneratedFile) : Bool :=
  testMediaOpen (codeCorpus files).data || hasUtilityBreakpoint (codeCorpus files).data

/-- The overflow-guard CSS block appended by `withOverflowGuard`
(packagePolicy.ts lines 395-407). -/
def overflowGuardBlock : String :=
  "\n\n/* FlashBuild responsive overflow guard */\nhtml, body, #root \x7b\n  max-width: 100%;\n  overflow-x: hidden;\n\x7d\n\nimg, svg, canvas, video \x7b\n  max-width: 100%;\n  height: auto;\n\x7d\n"

/-- `withOverflowGuard` (packagePolicy.ts lines 390-409). -/
def withOverflowGuard (content : String) : String :=
  if testOverflowGuardPair content.data then content
  else jsTrimEnd content ++ overflowGuardBlock

/-- The breakpoint baseline CSS block appended by `withBreakpointBaseline`
(packagePolicy.ts lines 417-440). -/
def breakpointBaselineBlock : String :=
  "\n\n/* FlashBuild responsive breakpoint baseline */\n:root \x7b\n  --fb-content-max: 100%;\n\x7d\n\nmain, .container, [data-layout-root=\"true\"] \x7b\n  width: min(100%, var(--fb-content-max));\n  margin-inline: auto;\n\x7d\n\n@media (min-width: 768px) \x7b\n  :root \x7b\n    --fb-content-max: 768px;\n  \x7d\n\x7d\n\n@media (min-width: 1280px) \x7b\n  :root \x7b\n    --fb-content-max: 1280px;\n  \x7d\n\x7d\n"

/-- `withBreakpointBaseline` (packagePolicy.ts lines 411-442). -/
def withBreakpointBaseline (content : String) : String :=
  if testMinWidthMedia "768" content.data && testMinWidthMedia "1280" content.data then
    content
  else jsTrimEnd content ++ breakpointBaselineBlock

/-- `ensureResponsiveGuards` (packagePolicy.ts lines 444-467). -/
def ensureResponsiveGuards (files : List GeneratedFile) (outputStack : OutputStack) :
    List GeneratedFile :=
  let needOverflowGuard := !(hasOverflowGuard files)
  let needBreakpoints := !(hasBreakpointSignals files)
  if !needOverflowGuard && !needBreakpoints then files
  else
    let preferredPath :=
      if outputStack = OutputStack.reactTailwind then "src/styles.css" else "styles.css"
    let existing := match files.find? (fun f => f.path = preferredPath) with
      | some f => some f
      | none => files.find? (fun f => endsWithS f.path ".css")
    let compose := fun (content : String) =>
      let c1 := if needOverflowGuard then withOverflowGuard content else content
      if needBreakpoints then withBreakpointBaseline c1 else c1
    match existing with
    | some f => upsertFile files f.path (compose f.content)
    | none => upsertFile files preferredPath (compose "")

/-- `estimateComplexity` (packagePolicy.ts lines 364-372). -/
def estimateComplexity (manifest : PackageManifest) (files : List GeneratedFile) : Nat :=
  let depNames := manifest.dependencies.map (fun kv => kv.1)
  let heavyCount := (depNames.filter (fun d => HEAVY_PACKAGES.contains d)).length
  let depScore := min 55 (depNames.length * 4)
  let heavyScore := heavyCount * 20
  let codeSize := files.foldl (fun total f => total + f.content.length) 0
  let sizeScore := min 25 ((codeSize / 60000) * 5)
  min 100 (depScore + heavyScore + sizeScore)

/-- `buildRuntimeHint` (packagePolicy.ts lines 469-496). -/
def buildRuntimeHint (outputStack : OutputStack) (complexityScore : Nat)
    (blockedCount : Nat) : RuntimeHint :=
  if outputStack = OutputStack.vanilla then
    { preferredRuntime := PreviewRuntimeMode.srcdoc
      fallbackRuntime := some PreviewRuntimeMode.sandpack
      reason := "Vanilla output can be rendered directly with srcdoc runtime."
      complexityScore := complexityScore }
  else if complexityScore ≥ 85 then
    { preferredRuntime := PreviewRuntimeMode.remote
      fallbackRuntime := some PreviewRuntimeMode.sandpack
      reason := "High dependency complexity detected; remote runtime is preferred."
      complexityScore := complexityScore }
  else
    { preferredRuntime := PreviewRuntimeMode.sandpack
      fallbackRuntime := some PreviewRuntimeMode.remote
      reason := if blockedCount > 0 then
          "React project with sanitized dependencies; sandpack preferred with remote fallback."
        else "React project detected; sandpack preview selected."
      complexityScore := complexityScore }

/-- `buildResponsiveReport` (packagePolicy.ts lines 498-527). -/
def buildResponsiveReport (files : List GeneratedFile) : ResponsiveReport :=
  let html := ((files.find? (fun f => endsWithS f.path ".html")).map
    (fun f => f.content)).getD ""
  let cssAndTsx := codeCorpus files
  let w1 := if !(hasViewportMeta html) then ["Missing viewport meta tag."] else []
  let hasMediaQuery := testMediaOpenCI cssAndTsx.data
  let hasTailwindBreakpoints := hasUtilityBreakpoint cssAndTsx.data
  let w2 := if !hasMediaQuery && !hasTailwindBreakpoints then
      ["No responsive breakpoints found (media queries or utility breakpoints)."]
    else []
  let hasGuard := testOverflowGuardFull cssAndTsx.data
  let w3 := if !hasGuard then ["No explicit horizontal overflow guard detected."] else []
  let warnings := w1 ++ w2 ++ w3
  { passed := warnings.isEmpty, warnings := warnings, checkedViewports := [375, 768, 1280] }

/-- `[...new Set(xs)]`: first occurrences in order. -/
def dedupFirstGo (seen : List String) : List String → List String
  | [] => []
  | x :: rest =>
    if seen.contains x then dedupFirstGo seen rest
    else x :: dedupFirstGo (x :: seen) rest

/-- `[...new Set(xs)]`. -/
def dedupFirst (xs : List String) : List String := dedupFirstGo [] xs

/-- `enforcePackagePolicy` (packagePolicy.ts lines 529-574), with the strict
allowlist environment flag as an explicit argument. -/
def enforcePackagePolicy (strictAllowlist : Bool) (files : List GeneratedFile)
    (outputStack : OutputStack) : PackagePolicyResult :=
  let fromJson := parsePackageJson files
  let base := getBaseManifest outputStack
  let merged := mergeManifest base fromJson strictAllowlist
  let blocked := merged.2.1
  let retainedUnlisted := merged.2.2
  let manifest := normalizeManifestForStack merged.1 outputStack
  let files1 := if outputStack = OutputStack.reactTailwind then
      ensureReactScaffold files manifest
    else ensureVanillaScaffold files manifest
  let files2 := ensureTailwindSyntax files1 outputStack
  let files3 := normalizeEsmConfigFiles files2 outputStack
  let nextFiles := ensureResponsiveGuards files3 outputStack
  let notes1 := if blocked ≠ [] then
      ["Strict allowlist blocked packages: " ++ joinSep ", " blocked]
    else []
  let notes2 := if retainedUnlisted ≠ [] then
      let unique := dedupFirst retainedUnlisted
      ["Retained non-allowlisted dependencies for runtime compatibility: "
        ++ joinSep ", " (unique.take 8) ++ (if unique.length > 8 then "…" else "")]
    else []
  let complexityScore := estimateComplexity manifest nextFiles
  let runtimeHint := buildRuntimeHint outputStack complexityScore blocked.length
  let responsiveReport := buildResponsiveReport nextFiles
  let notes3 := if !responsiveReport.passed then
      ["Responsive warnings: " ++ joinSep " " responsiveReport.warnings]
    else []
  { files := nextFiles
    manifest := manifest
    blockedPackages := blocked
    notes := notes1 ++ notes2 ++ notes3
    runtimeHint := runtimeHint
    responsiveReport := responsiveReport }

/-- The file set a Builder model response becomes before being streamed:
route.ts lines 201-214 parse the response and apply the package policy, and
the resulting `files` are exactly what the `file` events emit (route.ts lines
473-485). -/
def pipelineEmittedFiles (strictAllowlist : Bool) (raw : String)
    (outputStack : OutputStack) : List GeneratedFile :=
  (enforcePackagePolicy strictAllowlist (parseFiles raw) outputStack).files

/-- Counterexample to C3 as stated: a Builder response declaring the path
`../evil.js` is parsed, retained by the package policy enforcer and streamed
as-is — the emitted path contains a `..` segment and escapes the project root. -/
theorem emitted_path_traversal_counterexample :
    "../evil.js" ∈ (pipelineEmittedFiles false
        "---FILE: ../evil.js---\nalert(1)\n---END FILE---" OutputStack.vanilla).map
        (fun f => f.path)
    ∧ parentSeg ∈ splitOnSlash (String.data "../evil.js") := by
  decide

set_option maxRecDepth 100000

/-- Claim C6 (a code bug, not a property of the code): `enforcePackagePolicy`
is not idempotent on its file output.  On the react-tailwind stack the first
run rewrites `src/styles.css` to start with the Tailwind v4 import it
prepends; the second run sees that import, chooses an empty prefix, and still
emits `prefix + "\n\n" + body`, prepending two newlines — so the twice-enforced
file set differs from the once-enforced one. -/
theorem enforcePackagePolicy_not_idempotent :
    (enforcePackagePolicy false
        (enforcePackagePolicy false
          [⟨"src/styles.css", "body \x7b color: red; \x7d", "css"⟩]
          OutputStack.reactTailwind).files
        OutputStack.reactTailwind).files
      ≠ (enforcePackagePolicy false
          [⟨"src/styles.css", "body \x7b color: red; \x7d", "css"⟩]
          OutputStack.reactTailwind).files := by
  decide

/-! ## Quality validator decision stage (`validateOutput.ts` lines 314-388)

The model-reviewer call and the deterministic rule battery are oracle inputs:
`parsed` is the JSON-parsed reviewer response (with `Boolean`-coerced
`functionalPass`), `deterministicIssuesRaw` the concatenation, in source
order, of the six deterministic check results (lines 341-348), and
`visualScore` the weighted score computed at line 336.  Everything after those
is the deterministic decision logic embedded below. -/

/-- `QualityReport` (`src/types/index.ts`). -/
structure QualityReport where
  visualScore : Int
  functionalPass : Bool
  issues : List String
  accepted : Bool
  retryRecommended : Bool
  patchInstructions : Option String
  responsiveWarnings : List String
deriving Repr, DecidableEq

/-- The parsed model-reviewer response (`ReviewerResponse`, validateOutput.ts
lines 23-27); absent fields are `none`/defaults as the `??`/`Boolean`
coercions make them. -/
structure ReviewerResponse where
  functionalPass : Bool
  criticalIssues : List String
  patchInstructions : Option String
deriving Repr, DecidableEq

/-- `uniq` (validateOutput.ts lines 45-47) and `uniqStrings` (route.ts lines
60-62): trim, drop falsy, and keep first occurrences. -/
def uniqJsGo (seen : List String) : List String → List String
  | [] => []
  | x :: rest =>
    let t := jsTrim x
    if t = "" || seen.contains t then uniqJsGo seen rest
    else t :: uniqJsGo (t :: seen) rest

/-- `[...new Set(values.map(v => v.trim()).filter(Boolean))]`. -/
def uniqJs (values : List String) : List String := uniqJsGo [] values

/-- `acceptanceThreshold` (validateOutput.ts lines 292-296). -/
def acceptanceThreshold : QualityMode → Int
  | QualityMode.strictVisual => 78
  | QualityMode.balanced => 65
  | QualityMode.functionFirst => 45

/-- `modeRequiresVisual` (validateOutput.ts lines 298-300). -/
def modeRequiresVisual (mode : QualityMode) : Bool :=
  mode ≠ QualityMode.functionFirst

/-- The wire spellings of `QualityMode`. -/
def qualityModeStr : QualityMode → String
  | QualityMode.strictVisual => "strict_visual"
  | QualityMode.balanced => "balanced"
  | QualityMode.functionFirst => "function_first"

/-- The visual-threshold rejection line (validateOutput.ts line 360). -/
def visualIssueMsg (visualScore threshold : Int) (mode : QualityMode) : String :=
  "Visual score " ++ toString visualScore ++ " is below threshold "
    ++ toString threshold ++ " for mode " ++ qualityModeStr mode ++ "."

/-- `functionalIssues` (validateOutput.ts line 349): reviewer issues merged
with the deduplicated deterministic issues. -/
def qualityFunctionalIssues (parsed : Option ReviewerResponse)
    (deterministicIssuesRaw : List String) : List String :=
  uniqJs (((parsed.map (fun r => r.criticalIssues)).getD [])
    ++ uniqJs deterministicIssuesRaw)

/-- `issues` (validateOutput.ts lines 358-364): the functional issues plus the
visual-threshold line and the responsive line when those gates fail. -/
def qualityIssues (mode : QualityMode) (parsed : Option ReviewerResponse)
    (deterministicIssuesRaw : List String) (responsiveWarnings : List String)
    (visualScore : Int) : List String :=
  let threshold := acceptanceThreshold mode
  let visualPass : Bool :=
    if modeRequiresVisual mode then decide (visualScore ≥ threshold) else true
  let responsivePass := responsiveWarnings.isEmpty
  qualityFunctionalIssues parsed deterministicIssuesRaw
    ++ (if !visualPass then [visualIssueMsg visualScore threshold mode] else [])
    ++ (if !responsivePass then ["Responsive checks failed."] else [])

/-- `patchLines` (validateOutput.ts line 366): deduplicated deterministic
issues and final issues, capped at 20 entries. -/
def qualityPatchLines (mode : QualityMode) (parsed : Option ReviewerResponse)
    (deterministicIssuesRaw : List String) (responsiveWarnings : List String)
    (visualScore : Int) : List String :=
  (uniqJs (uniqJs deterministicIssuesRaw
    ++ qualityIssues mode parsed deterministicIssuesRaw responsiveWarnings visualScore)).take 20

/-- `mergedPatchInstructions` (validateOutput.ts lines 367-372): the trimmed
reviewer patch text and the bullet block, joined by a blank line, empty parts
dropped. -/
def mergedPatchText (reviewerPatch : String) (patchLines : List String) : String :=
  let block := if patchLines.isEmpty then ""
    else "Fix the following issues exactly:\n"
      ++ joinSep "\n" (patchLines.map (fun l => "- " ++ l))
  joinSep "\n\n" (([reviewerPatch, block] : List String).filter (fun s => s ≠ ""))

/-- The `QualityReport` constructed by `validateOutput` (lines 341-382) from
the oracle inputs. -/
def buildQualityReport (mode : QualityMode) (parsed : Option ReviewerResponse)
    (deterministicIssuesRaw : List String) (responsiveWarnings : List String)
    (visualScore : Int) : QualityReport :=
  let reviewerPass := (parsed.map (fun r => r.functionalPass)).getD false
  let functionalIssues := qualityFunctionalIssues parsed deterministicIssuesRaw
  let functionalPass := reviewerPass && functionalIssues.isEmpty
  let threshold := acceptanceThreshold mode
  let responsivePass := responsiveWarnings.isEmpty
  let visualPass : Bool :=
    if modeRequiresVisual mode then decide (visualScore ≥ threshold) else true
  let accepted := functionalPass && visualPass && responsivePass
  let issues := qualityIssues mode parsed deterministicIssuesRaw responsiveWarnings visualScore
  let patchLines := qualityPatchLines mode parsed deterministicIssuesRaw responsiveWarnings visualScore
  let reviewerPatch := ((parsed.bind (fun r => r.patchInstructions)).map jsTrim).getD ""
  let merged := mergedPatchText reviewerPatch patchLines
  { visualScore := visualScore
    functionalPass := functionalPass
    issues := issues
    accepted := accepted
    retryRecommended := !accepted
    patchInstructions := if merged = "" then none else some merged
    responsiveWarnings := responsiveWarnings }

/-- Claim C4.  In `function_first` mode the acceptance decision never depends
on the visual score: two validations identical except for the computed visual
score produce the same report up to the recorded score itself (in particular
the same `accepted`), and the issue list never receives a visual-threshold
line — it is exactly the functional issues plus the responsive line. -/
theorem function_first_acceptance_ignores_visual_score
    (parsed : Option ReviewerResponse) (deterministicIssuesRaw : List String)
    (responsiveWarnings : List String) (v1 v2 : Int) :
    buildQualityReport QualityMode.functionFirst parsed deterministicIssuesRaw
        responsiveWarnings v1
      = { buildQualityReport QualityMode.functionFirst parsed deterministicIssuesRaw
            responsiveWarnings v2 with visualScore := v1 }
    ∧ (∀ v : Int, qualityIssues QualityMode.functionFirst parsed deterministicIssuesRaw
          responsiveWarnings v
        = qualityFunctionalIssues parsed deterministicIssuesRaw
          ++ (if !responsiveWarnings.isEmpty then ["Responsive checks failed."] else [])) := by
  constructor
  · simp [buildQualityReport, qualityIssues, qualityPatchLines, modeRequiresVisual]
  · intro v
    simp [qualityIssues, modeRequiresVisual]

theorem uniqJsGo_spec (xs : List String) : ∀ seen : List String,
    (uniqJsGo seen xs).Nodup ∧ ∀ a ∈ uniqJsGo seen xs, a ∉ seen := by
  induction xs with
  | nil => intro seen; simp [uniqJsGo]
  | cons x rest ih =>
    intro seen
    rw [uniqJsGo]
    split
    · exact ⟨(ih seen).1, (ih seen).2⟩
    next hcond =>
      have hnotseen : jsTrim x ∉ seen := by
        intro hmem
        exact hcond (by simp [hmem])
      refine ⟨List.nodup_cons.mpr ⟨?_, (ih (jsTrim x :: seen)).1⟩, ?_⟩
      · intro hmem
        have := (ih (jsTrim x :: seen)).2 _ hmem
        simp at this
      · intro a ha
        rcases List.mem_cons.mp ha with rfl | ha
        · exact hnotseen
        · have := (ih (jsTrim x :: seen)).2 a ha
          exact fun hk => this (List.mem_cons_of_mem _ hk)

theorem uniqJs_nodup (xs : List String) : (uniqJs xs).Nodup :=
  (uniqJsGo_spec xs []).1

/-- Claim C7 (amended).  The deduplication and 20-entry cap apply to the
bullet list that the patch text is built from, not to the whole text: the
bullet lines are pairwise distinct and at most 20, and the report's patch
instructions are exactly the trimmed reviewer patch text joined (by a blank
line) with a one-line header followed by those bullet lines — so the full
text can exceed 20 lines by the header and the reviewer's own text. -/
theorem patch_bullet_lines_dedup_and_cap (mode : QualityMode)
    (parsed : Option ReviewerResponse) (deterministicIssuesRaw : List String)
    (responsiveWarnings : List String) (v : Int) :
    (qualityPatchLines mode parsed deterministicIssuesRaw responsiveWarnings v).length ≤ 20
    ∧ (qualityPatchLines mode parsed deterministicIssuesRaw responsiveWarnings v).Nodup
    ∧ ((buildQualityReport mode parsed deterministicIssuesRaw responsiveWarnings v).patchInstructions
        = if mergedPatchText (((parsed.bind fun r => r.patchInstructions).map jsTrim).getD "")
              (qualityPatchLines mode parsed deterministicIssuesRaw responsiveWarnings v) = ""
          then none
          else some (mergedPatchText
              (((parsed.bind fun r => r.patchInstructions).map jsTrim).getD "")
              (qualityPatchLines mode parsed deterministicIssuesRaw responsiveWarnings v))) := by
  refine ⟨?_, ?_, ?_⟩
  · exact List.length_take_le 20 _
  · exact List.Nodup.sublist (List.take_sublist 20 _) (uniqJs_nodup _)
  · rfl

/-- Twenty-one distinct deterministic issues on a rejected result: the patch
text itself has 23 lines (the one-line reviewer patch, a blank separator,
the header, and 20 bullets), exceeding a 20-line cap on the whole text. -/
theorem patch_text_line_cap_counterexample :
    (buildQualityReport QualityMode.functionFirst
        (some ⟨true, [], some "Tighten the layout."⟩)
        ["i01", "i02", "i03", "i04", "i05", "i06", "i07", "i08", "i09", "i10",
         "i11", "i12", "i13", "i14", "i15", "i16", "i17", "i18", "i19", "i20",
         "i21"] [] 100).accepted = false
    ∧ 20 < (splitOnChar '\n'
        (((buildQualityReport QualityMode.functionFirst
            (some ⟨true, [], some "Tighten the layout."⟩)
            ["i01", "i02", "i03", "i04", "i05", "i06", "i07", "i08", "i09", "i10",
             "i11", "i12", "i13", "i14", "i15", "i16", "i17", "i18", "i19", "i20",
             "i21"] [] 100).patchInstructions).getD "")).length := by
  decide

/-! ## Runtime build validation (`validateRuntimeBuild.ts`, part_011 lines 412-627)

The process environment and the outcomes of the three `npm` child processes
are oracle inputs (`RuntimeEnv`); the function below is the deterministic
control flow of `validateRuntimeBuild`, returning both its result and the
trace of externally visible effects (file writes into the temp root, child
process spawns).  `durationMs` is wall-clock timing and is not modelled;
`JSON.parse` is modelled by `jsonParse` over the JSON subset the pipeline
manifests use, with the engine-specific exception message as an oracle. -/

/-- `CommandResult` (part_011 lines 412-417). -/
structure CommandResult where
  code : Int
  stdout : String
  stderr : String
  timedOut : Bool
deriving Repr, DecidableEq

/-- The process environment and child-process oracles consumed by
`validateRuntimeBuild`. -/
structure RuntimeEnv where
  runtimeValidationFlag : Option String
  vercelFlag : Option String
  runtimeTestsFlag : Option String
  installResult : CommandResult
  buildResult : CommandResult
  testResult : CommandResult
  parseErrorMsg : String
deriving Repr, DecidableEq

/-- `RuntimeBuildValidationResult` without the wall-clock `durationMs`. -/
structure RuntimeBuildValidationResult where
  passed : Bool
  phase : String
  issues : List String
  logs : List String
deriving Repr, DecidableEq

/-- An externally visible effect of `validateRuntimeBuild`: a file written
under the temp root, or a child process spawned for a phase. -/
inductive RuntimeEffect where
  | writeFile (path : String) (content : String)
  | spawn (phase : String)
deriving Repr, DecidableEq

/-- `shouldRunRuntimeValidation` (part_011 lines 502-509). -/
def shouldRunRuntimeValidation (env : RuntimeEnv) (outputStack : OutputStack) : Bool :=
  if outputStack ≠ OutputStack.reactTailwind then false
  else if env.runtimeValidationFlag = some "off" then false
  else if env.vercelFlag = some "1" ∧ env.runtimeValidationFlag ≠ some "force" then false
  else true

/-- JavaScript truthiness of a JSON value. -/
def jTruthy : JVal → Bool
  | JVal.jnull => false
  | JVal.jbool b => b
  | JVal.jnum n => n ≠ 0
  | JVal.jstr s => s ≠ ""
  | JVal.jobj _ => true

/-- `v.k1?.k2` — optional chaining through a possibly absent or null field. -/
def jChain2 (v : JVal) (k1 k2 : String) : Option JVal :=
  match jGetField v k1 with
  | none => none
  | some JVal.jnull => none
  | some s => jGetField s k2

/-- `Boolean(x)` over a possibly `undefined` JSON value. -/
def jTruthyOpt : Option JVal → Bool
  | none => false
  | some v => jTruthy v

/-- A `logs` entry (part_011 lines 562, 580, 595):
`[tag]\n` followed by the non-empty command outputs joined and trimmed. -/
def runtimeLogEntry (tag : String) (r : CommandResult) : String :=
  "[" ++ tag ++ "]\n"
    ++ jsTrim (joinSep "\n" (([r.stdout, r.stderr] : List String).filter (fun s => s ≠ "")))

/-- The interesting-line test of `summarizeFailure` (part_011 line 491):
case-insensitive substring search for any failure keyword. -/
def failureNeedles : List String :=
  ["error", "failed", "cannot", "missing", "unexpected", "syntax", "resolve", "invalid"]

/-- `summarizeFailure` (part_011 lines 484-500).  The `/\r?\n/` split
followed by `trim` is modelled as a split on `\n` followed by `trim`, which
agrees because `trim` strips the at most one carriage return the regex would
have consumed. -/
def summarizeFailure (stage : String) (output : String) (timedOut : Bool) : List String :=
  let lines := ((splitOnChar '\n' output).map jsTrim).filter (fun s => s ≠ "")
  let interesting := (lines.filter (fun l =>
    failureNeedles.any (fun n => containsSeq n.data (lowerS l).data))).take 12
  let selected := if interesting.isEmpty then lines.drop (lines.length - 12) else interesting
  let header := if timedOut then "Runtime " ++ stage ++ " timed out."
    else "Runtime " ++ stage ++ " command failed."
  (header :: selected).take 12

/-- The test step and success return of `validateRuntimeBuild`
(part_011 lines 592-613), after install (and build, when present) succeeded. -/
def runtimeTestsStep (env : RuntimeEnv) (parsedPackage : JVal) (logs : List String)
    (effs : List RuntimeEffect) (hasBuild : Bool) :
    RuntimeBuildValidationResult × List RuntimeEffect :=
  let successPhase := if hasBuild then "build" else "install"
  if env.runtimeTestsFlag = some "1" ∧ jTruthyOpt (jChain2 parsedPackage "scripts" "test") then
    let t := env.testResult
    let logsT := logs ++ [runtimeLogEntry "test" t]
    let effsT := effs ++ [RuntimeEffect.spawn "test"]
    if t.code ≠ 0 then
      ({ passed := false, phase := "test",
         issues := summarizeFailure "test" (t.stdout ++ "\n" ++ t.stderr) t.timedOut,
         logs := logsT }, effsT)
    else ({ passed := true, phase := successPhase, issues := [], logs := logsT }, effsT)
  else ({ passed := true, phase := successPhase, issues := [], logs := logs }, effs)

/-- `validateRuntimeBuild` (part_011 lines 515-627) with its effect trace. -/
def validateRuntimeBuild (env : RuntimeEnv) (files : List GeneratedFile)
    (outputStack : OutputStack) : RuntimeBuildValidationResult × List RuntimeEffect :=
  if shouldRunRuntimeValidation env outputStack = false then
    ({ passed := true, phase := "skipped",
       issues := ["Runtime build validation skipped by environment."], logs := [] }, [])
  else
    match files.find? (fun f => f.path = "package.json") with
    | none =>
      ({ passed := false, phase := "install",
         issues := ["Missing package.json for runtime build validation."], logs := [] }, [])
    | some packageJson =>
      let writes := files.filterMap (fun f =>
        (normalizePath f.path).map (fun p => RuntimeEffect.writeFile p f.content))
      let install := env.installResult
      let logsI := [runtimeLogEntry "install" install]
      let effsI := writes ++ [RuntimeEffect.spawn "install"]
      if install.code ≠ 0 then
        ({ passed := false, phase := "install",
           issues := summarizeFailure "install" (install.stdout ++ "\n" ++ install.stderr)
             install.timedOut,
           logs := logsI }, effsI)
      else
        match jsonParse packageJson.content with
        | none =>
          ({ passed := false, phase := "build",
             issues := ["Runtime validator crashed: " ++ env.parseErrorMsg],
             logs := [] }, effsI)
        | some parsedPackage =>
          let hasBuild := jTruthyOpt (jChain2 parsedPackage "scripts" "build")
          if hasBuild then
            let b := env.buildResult
            let logsB := logsI ++ [runtimeLogEntry "build" b]
            let effsB := effsI ++ [RuntimeEffect.spawn "build"]
            if b.code ≠ 0 then
              ({ passed := false, phase := "build",
                 issues := summarizeFailure "build" (b.stdout ++ "\n" ++ b.stderr) b.timedOut,
                 logs := logsB }, effsB)
            else runtimeTestsStep env parsedPackage logsB effsB true
          else runtimeTestsStep env parsedPackage logsI effsI false

/-- Claim C10.  For every environment and file set, a non-react-tailwind
output stack makes `validateRuntimeBuild` return `passed = true` with
`phase = "skipped"` and an empty effect trace: no file is written and no
child process is spawned. -/
theorem vanilla_runtime_validation_skipped (env : RuntimeEnv)
    (files : List GeneratedFile) (outputStack : OutputStack)
    (h : outputStack ≠ OutputStack.reactTailwind) :
    (validateRuntimeBuild env files outputStack).1.passed = true
    ∧ (validateRuntimeBuild env files outputStack).1.phase = "skipped"
    ∧ (validateRuntimeBuild env files outputStack).2 = [] := by
  have hskip : shouldRunRuntimeValidation env outputStack = false := by
    unfold shouldRunRuntimeValidation
    simp [h]
  unfold validateRuntimeBuild
  rw [hskip]
  simp

theorem vanilla_runtime_validation_skipped_witness :
    OutputStack.vanilla ≠ OutputStack.reactTailwind
    ∧ ((validateRuntimeBuild
          ⟨none, none, none, ⟨0, "", "", false⟩, ⟨0, "", "", false⟩,
            ⟨0, "", "", false⟩, ""⟩
          [⟨"index.html", "<html></html>", "html"⟩] OutputStack.vanilla).1.passed = true
      ∧ (validateRuntimeBuild
          ⟨none, none, none, ⟨0, "", "", false⟩, ⟨0, "", "", false⟩,
            ⟨0, "", "", false⟩, ""⟩
          [⟨"index.html", "<html></html>", "html"⟩] OutputStack.vanilla).1.phase = "skipped"
      ∧ (validateRuntimeBuild
          ⟨none, none, none, ⟨0, "", "", false⟩, ⟨0, "", "", false⟩,
            ⟨0, "", "", false⟩, ""⟩
          [⟨"index.html", "<html></html>", "html"⟩] OutputStack.vanilla).2 = []) :=
  ⟨by decide,
    vanilla_runtime_validation_skipped _ _ _ (by decide)⟩

/-- With runtime tests enabled (`FLASHBUILD_RUNTIME_TESTS=1`), a passing
install, no `build` script but a failing `test` script, `validateRuntimeBuild`
returns `passed = false` with `phase = "test"` — not `passed = true` with
`phase = "install"` — even though the build command is indeed never spawned. -/
theorem runtime_no_build_script_counterexample :
    (validateRuntimeBuild
        ⟨none, none, some "1", ⟨0, "", "", false⟩, ⟨0, "", "", false⟩,
          ⟨1, "1 test failed", "", false⟩, ""⟩
        [⟨"package.json",
          "\x7b\n  \"scripts\": \x7b\n    \"test\": \"node test.js\"\n  \x7d\n\x7d",
          "json"⟩]
        OutputStack.reactTailwind).1.passed = false
    ∧ (validateRuntimeBuild
        ⟨none, none, some "1", ⟨0, "", "", false⟩, ⟨0, "", "", false⟩,
          ⟨1, "1 test failed", "", false⟩, ""⟩
        [⟨"package.json",
          "\x7b\n  \"scripts\": \x7b\n    \"test\": \"node test.js\"\n  \x7d\n\x7d",
          "json"⟩]
        OutputStack.reactTailwind).1.phase = "test"
    ∧ RuntimeEffect.spawn "build" ∉ (validateRuntimeBuild
        ⟨none, none, some "1", ⟨0, "", "", false⟩, ⟨0, "", "", false⟩,
          ⟨1, "1 test failed", "", false⟩, ""⟩
        [⟨"package.json",
          "\x7b\n  \"scripts\": \x7b\n    \"test\": \"node test.js\"\n  \x7d\n\x7d",
          "json"⟩]
        OutputStack.reactTailwind).2 := by
  decide

theorem runtimeTestsStep_effects (env : RuntimeEnv) (p : JVal) (logs : List String)
    (effs : List RuntimeEffect) (hb : Bool) :
    (runtimeTestsStep env p logs effs hb).2 = effs
    ∨ (runtimeTestsStep env p logs effs hb).2 = effs ++ [RuntimeEffect.spawn "test"] := by
  simp only [runtimeTestsStep]
  by_cases h : env.runtimeTestsFlag = some "1"
      ∧ jTruthyOpt (jChain2 p "scripts" "test") = true
  · rw [if_pos h]
    by_cases hc : env.testResult.code ≠ 0
    · rw [if_pos hc]; right; rfl
    · rw [if_neg hc]; right; rfl
  · rw [if_neg h]; left; rfl

theorem runtimeTestsStep_pass (env : RuntimeEnv) (p : JVal) (logs : List String)
    (effs : List RuntimeEffect)
    (h : ¬(env.runtimeTestsFlag = some "1"
        ∧ jTruthyOpt (jChain2 p "scripts" "test") = true)
      ∨ env.testResult.code = 0) :
    (runtimeTestsStep env p logs effs false).1.passed = true
    ∧ (runtimeTestsStep env p logs effs false).1.phase = "install" := by
  simp only [runtimeTestsStep]
  rcases h with h | h
  · rw [if_neg h]
    exact ⟨rfl, rfl⟩
  · by_cases ht : env.runtimeTestsFlag = some "1"
        ∧ jTruthyOpt (jChain2 p "scripts" "test") = true
    · rw [if_pos ht, if_neg (by simp [h])]
      exact ⟨rfl, rfl⟩
    · rw [if_neg ht]
      exact ⟨rfl, rfl⟩

theorem validateRuntimeBuild_no_build_eq (env : RuntimeEnv) (files : List GeneratedFile)
    (pkg : GeneratedFile) (parsedPackage : JVal)
    (hrun : shouldRunRuntimeValidation env OutputStack.reactTailwind = true)
    (hfind : files.find? (fun f => f.path = "package.json") = some pkg)
    (hparse : jsonParse pkg.content = some parsedPackage)
    (hnobuild : jTruthyOpt (jChain2 parsedPackage "scripts" "build") = false)
    (hinstall : env.installResult.code = 0) :
    validateRuntimeBuild env files OutputStack.reactTailwind
      = runtimeTestsStep env parsedPackage
          [runtimeLogEntry "install" env.installResult]
          ((files.filterMap fun f =>
              (normalizePath f.path).map fun q => RuntimeEffect.writeFile q f.content)
            ++ [RuntimeEffect.spawn "install"]) false := by
  unfold validateRuntimeBuild
  rw [hrun, hfind]
  simp only [hparse, hnobuild, hinstall]
  simp

/-- Claim C8 (amended).  When runtime validation runs, install succeeds, and
the parsed `package.json` declares no (truthy) `build` script, the build
command is never spawned; and provided the test step does not intervene
(tests disabled, no `test` script, or the tests pass), the result is
`passed = true` with `phase = "install"`.  With `FLASHBUILD_RUNTIME_TESTS=1`
and a failing `test` script, the result is instead `phase = "test"`,
`passed = false`. -/
theorem runtime_no_build_script_no_build_spawn (env : RuntimeEnv)
    (files : List GeneratedFile) (pkg : GeneratedFile) (parsedPackage : JVal)
    (hrun : shouldRunRuntimeValidation env OutputStack.reactTailwind = true)
    (hfind : files.find? (fun f => f.path = "package.json") = some pkg)
    (hparse : jsonParse pkg.content = some parsedPackage)
    (hnobuild : jTruthyOpt (jChain2 parsedPackage "scripts" "build") = false)
    (hinstall : env.installResult.code = 0) :
    RuntimeEffect.spawn "build"
        ∉ (validateRuntimeBuild env files OutputStack.reactTailwind).2
    ∧ (¬(env.runtimeTestsFlag = some "1"
          ∧ jTruthyOpt (jChain2 parsedPackage "scripts" "test") = true)
        ∨ env.testResult.code = 0 →
      (validateRuntimeBuild env files OutputStack.reactTailwind).1.passed = true
      ∧ (validateRuntimeBuild env files OutputStack.reactTailwind).1.phase = "install") := by
  have heq := validateRuntimeBuild_no_build_eq env files pkg parsedPackage
    hrun hfind hparse hnobuild hinstall
  rw [heq]
  constructor
  · have hbase : RuntimeEffect.spawn "build"
        ∉ ((files.filterMap fun f =>
            (normalizePath f.path).map fun q => RuntimeEffect.writeFile q f.content)
          ++ [RuntimeEffect.spawn "install"]) := by
      intro hmem
      rcases List.mem_append.mp hmem with hmem | hmem
      · rcases List.mem_filterMap.mp hmem with ⟨f, _, hf⟩
        rcases Option.map_eq_some'.mp hf with ⟨q, _, hq⟩
        exact RuntimeEffect.noConfusion hq
      · simp at hmem
    rcases runtimeTestsStep_effects env parsedPackage
        [runtimeLogEntry "install" env.installResult]
        ((files.filterMap fun f =>
            (normalizePath f.path).map fun q => RuntimeEffect.writeFile q f.content)
          ++ [RuntimeEffect.spawn "install"]) false with he | he
    · rw [he]; exact hbase
    · rw [he]
      intro hmem
      rcases List.mem_append.mp hmem with hmem | hmem
      · exact hbase hmem
      · simp at hmem
  · intro h
    exact runtimeTestsStep_pass env parsedPackage _ _ h

def runtimeWitnessEnv : RuntimeEnv :=
  ⟨none, none, none, ⟨0, "", "", false⟩, ⟨0, "", "", false⟩, ⟨0, "", "", false⟩, ""⟩

def runtimeWitnessContent : String :=
  "\x7b\n  \"scripts\": \x7b\n    \"dev\": \"vite\"\n  \x7d\n\x7d"

def runtimeWitnessFiles : List GeneratedFile :=
  [⟨"package.json", runtimeWitnessContent, "json"⟩]

def runtimeWitnessParsed : JVal :=
  JVal.jobj [("scripts", JVal.jobj [("dev", JVal.jstr "vite")])]

theorem runtime_no_build_script_no_build_spawn_witness :
    RuntimeEffect.spawn "build"
        ∉ (validateRuntimeBuild runtimeWitnessEnv runtimeWitnessFiles
            OutputStack.reactTailwind).2
    ∧ (validateRuntimeBuild runtimeWitnessEnv runtimeWitnessFiles
        OutputStack.reactTailwind).1.passed = true
    ∧ (validateRuntimeBuild runtimeWitnessEnv runtimeWitnessFiles
        OutputStack.reactTailwind).1.phase = "install" :=
  have h := runtime_no_build_script_no_build_spawn runtimeWitnessEnv runtimeWitnessFiles
    ⟨"package.json", runtimeWitnessContent, "json"⟩ runtimeWitnessParsed
    (by decide) (by decide) (by rfl) (by decide) (by decide)
  ⟨h.1, (h.2 (Or.inl (by decide))).1, (h.2 (Or.inl (by decide))).2⟩

/-! ## Design-spec extraction (`extractDesignSpec.ts`)

The AI call and JSON parse are oracles: `parsed` below is the
`safeJsonParse<DesignSpec>` result (with absent optional fields as `none`);
everything from line 211 on is the deterministic normalization embedded
here.  `ReferenceBundle` is restricted to the fields `buildFallbackSpec`
reads; the TypeScript field `layout.structure` is spelled `structureText`
because `structure` is a Lean keyword. -/

structure FilePlanEntry where
  path : String
  purpose : String
deriving Repr, DecidableEq

structure LayoutSpec where
  structureText : String
  sections : List String
  breakpoints : List String
deriving Repr, DecidableEq

structure VisualSystem where
  palette : List String
  typography : List String
  spacing : List String
deriving Repr, DecidableEq

structure ComponentSpec where
  name : String
  role : String
  states : List String
deriving Repr, DecidableEq

/-- The fields of `ReferenceBundle` consumed by `buildFallbackSpec`. -/
structure ReferenceBundle where
  prompt : String
  styleTokens : List String
  interactionHints : List String
deriving Repr, DecidableEq

structure DesignSpec where
  appName : String
  description : String
  outputStack : OutputStack
  layout : LayoutSpec
  visualSystem : VisualSystem
  components : List ComponentSpec
  interactions : List String
  filePlan : List FilePlanEntry
deriving Repr, DecidableEq

/-- The model's parsed response: the same shape with the two fields the
normalization at lines 219-223 may find absent as `Option`s. -/
structure ParsedDesignSpec where
  appName : String
  description : String
  outputStack : Option OutputStack
  layout : LayoutSpec
  visualSystem : VisualSystem
  components : List ComponentSpec
  interactions : List String
  filePlan : Option (List FilePlanEntry)
deriving Repr, DecidableEq

/-- `reactFilePlan` (extractDesignSpec.ts lines 115-123). -/
def reactFilePlan : List FilePlanEntry :=
  [⟨"package.json", "Dependencies and scripts for npm runtime"⟩,
   ⟨"index.html", "Root HTML with #root mount and viewport meta"⟩,
   ⟨"src/main.tsx", "React entrypoint and root render"⟩,
   ⟨"src/App.tsx", "Primary app shell and layout"⟩,
   ⟨"src/styles.css", "Tailwind import and global styles"⟩,
   ⟨"tailwind.config.js", "Tailwind content scanning and theme extension"⟩,
   ⟨"postcss.config.js", "PostCSS + Tailwind plugin wiring"⟩]

/-- `vanillaFilePlan` (extractDesignSpec.ts lines 124-128). -/
def vanillaFilePlan : List FilePlanEntry :=
  [⟨"index.html", "Main markup and application mount points"⟩,
   ⟨"styles.css", "Design tokens and component styling"⟩,
   ⟨"app.js", "State, rendering, and event handlers"⟩]

/-- `buildFallbackSpec` (extractDesignSpec.ts lines 114-158). -/
def buildFallbackSpec (references : ReferenceBundle) (outputStack : OutputStack) :
    DesignSpec :=
  let desc := String.mk (references.prompt.data.take 140)
  let palette := (references.styleTokens.filter
    (fun t => (['#'] : List Char).isPrefixOf t.data)).take 8
  let typography := (references.styleTokens.filter
    (fun t => containsSeq "font-family".data t.data)).take 4
  let spacing := (references.styleTokens.filter
    (fun t => containsSeq "padding".data t.data || containsSeq "margin".data t.data)).take 6
  { appName := "Replica Studio"
    description := if desc = "" then "Generated web app replica" else desc
    outputStack := outputStack
    layout :=
      { structureText := "Single-page app with header, main content area, and utility panels."
        sections := ["header", "main", "footer"]
        breakpoints := ["375", "768", "1280"] }
    visualSystem :=
      { palette := if palette.isEmpty then
          ["#0f172a", "#1e293b", "#334155", "#3b82f6", "#8b5cf6", "#f8fafc",
           "#94a3b8", "#22d3ee"] else palette
        typography := if typography.isEmpty then
          ["font-family: system-ui, -apple-system, Inter, sans-serif",
           "font-weight: 700 headings", "font-weight: 400 body"] else typography
        spacing := if spacing.isEmpty then
          ["padding: 1rem (p-4)", "padding: 1.5rem (p-6)", "gap: 1rem (gap-4)",
           "gap: 1.5rem (gap-6)", "margin: 2rem section spacing"] else spacing }
    components :=
      [⟨"Header", "Navigation and branding", ["default"]⟩,
       ⟨"MainContent", "Primary UI rendering", ["default", "loading"]⟩,
       ⟨"ActionControls", "Primary interactions", ["idle", "active", "disabled"]⟩]
    interactions := references.interactionHints.take 10
    filePlan := if outputStack = OutputStack.reactTailwind then reactFilePlan
      else vanillaFilePlan }

/-- The normalization of `extractDesignSpec` (lines 211-225): on parse
failure the whole fallback spec; otherwise the parsed spec with
`outputStack` defaulted to the requested one and `filePlan` replaced by the
fallback plan only when absent or empty (`parsed.filePlan?.length` falsy). -/
def normalizeExtractedSpec (references : ReferenceBundle) (outputStack : OutputStack)
    (parsed : Option ParsedDesignSpec) : DesignSpec :=
  match parsed with
  | none => buildFallbackSpec references outputStack
  | some p =>
    { appName := p.appName
      description := p.description
      outputStack := p.outputStack.getD outputStack
      layout := p.layout
      visualSystem := p.visualSystem
      components := p.components
      interactions := p.interactions
      filePlan :=
        match p.filePlan with
        | some (e :: rest) => e :: rest
        | _ => (buildFallbackSpec references outputStack).filePlan }

/-- The required file set per output stack, as the specification words it
("file plan is forced to the required file set for the requested output
stack"). -/
def requiredFilePlanPaths : OutputStack → List String
  | OutputStack.reactTailwind =>
    ["package.json", "index.html", "src/main.tsx", "src/App.tsx",
     "src/styles.css", "tailwind.config.js", "postcss.config.js"]
  | OutputStack.vanilla => ["index.html", "styles.css", "app.js"]

/-- A model response proposing a one-file plan for a react-tailwind request:
the normalized spec keeps the proposed plan verbatim instead of forcing the
stack's required file set. -/
theorem file_plan_not_forced_counterexample :
    ((normalizeExtractedSpec ⟨"", [], []⟩ OutputStack.reactTailwind
        (some ⟨"App", "d", none,
          ⟨"s", [], []⟩, ⟨[], [], []⟩, [], [],
          some [⟨"only.html", "everything"⟩]⟩)).filePlan).map (fun e => e.path)
      = ["only.html"]
    ∧ ["only.html"] ≠ requiredFilePlanPaths OutputStack.reactTailwind := by
  decide

/-- Claim C9 (amended).  A non-empty model-proposed file plan is kept
verbatim; the fallback plan is substituted only when the response fails to
parse or its plan is absent or empty — and that fallback plan's paths are
exactly the required file set for the requested output stack. -/
theorem file_plan_kept_unless_empty (references : ReferenceBundle)
    (outputStack : OutputStack) (parsed : Option ParsedDesignSpec) :
    (∀ p plan, parsed = some p → p.filePlan = some plan → plan ≠ [] →
      (normalizeExtractedSpec references outputStack parsed).filePlan = plan)
    ∧ (∀ p, parsed = some p → p.filePlan = none ∨ p.filePlan = some [] →
      (normalizeExtractedSpec references outputStack parsed).filePlan
        = (buildFallbackSpec references outputStack).filePlan)
    ∧ (parsed = none →
      (normalizeExtractedSpec references outputStack parsed).filePlan
        = (buildFallbackSpec references outputStack).filePlan)
    ∧ ((buildFallbackSpec references outputStack).filePlan.map (fun e => e.path)
        = requiredFilePlanPaths outputStack) := by
  refine ⟨?_, ?_, ?_, ?_⟩
  · intro p plan hp hplan hne
    subst hp
    cases plan with
    | nil => exact absurd rfl hne
    | cons e rest =>
      simp only [normalizeExtractedSpec, hplan]
  · intro p hp hplan
    subst hp
    rcases hplan with h | h <;> simp only [normalizeExtractedSpec, h]
  · intro h
    subst h
    rfl
  · cases outputStack <;> rfl

theorem file_plan_kept_unless_empty_witness :
    (normalizeExtractedSpec ⟨"build a clock", [], []⟩ OutputStack.vanilla
        (some ⟨"Clock", "a clock", none,
          ⟨"s", [], []⟩, ⟨[], [], []⟩, [], [],
          some [⟨"main.html", "Everything"⟩]⟩)).filePlan
      = [⟨"main.html", "Everything"⟩] :=
  (file_plan_kept_unless_empty ⟨"build a clock", [], []⟩ OutputStack.vanilla
      (some ⟨"Clock", "a clock", none,
        ⟨"s", [], []⟩, ⟨[], [], []⟩, [], [],
        some [⟨"main.html", "Everything"⟩]⟩)).1
    _ _ rfl rfl (by decide)

/-! ## The orchestrator repair loop (`route.ts` lines 260-434)

The model calls (`generateProject`), the quality validation and the runtime
build validation of each pass are oracles: `RepairPassData` carries, for one
repair iteration, the policy-enforced regeneration result, the fresh quality
report, and the runtime validation outcome.  `cloneFiles`/`cloneJson` are
deep copies and so the identity in this value-level model.  The mutable
locals of the route handler form `OrchestratorState`. -/

/-- `lastRuntimeStable` (route.ts lines 109-115). -/
structure StableSnapshot where
  files : List GeneratedFile
  runtimeHint : Option RuntimeHint
  packageManifest : Option PackageManifest
  responsiveReport : Option ResponsiveReport
  report : QualityReport
deriving Repr

/-- The handler's mutable locals (route.ts lines 103-115 and `retries`,
line 316). -/
structure OrchestratorState where
  files : List GeneratedFile
  runtimeHint : Option RuntimeHint
  packageManifest : Option PackageManifest
  responsiveReport : Option ResponsiveReport
  policyNotes : List String
  report : QualityReport
  stable : Option StableSnapshot
  retries : Nat
deriving Repr

/-- The oracle outcomes of one repair iteration: the policy-enforced
regenerated files (route.ts lines 333-348), the fresh validation report
(lines 351-361), and the repaired runtime validation (lines 372-375). -/
structure RepairPassData where
  policyFiles : List GeneratedFile
  policyRuntimeHint : RuntimeHint
  policyManifest : PackageManifest
  policyResponsiveReport : ResponsiveReport
  policyNotes : List String
  report : QualityReport
  runtimePassed : Bool
  runtimePhase : String
  runtimeIssues : List String
deriving Repr

/-- `mergePatchInstructions` (route.ts lines 72-78). -/
def mergePatchInstructions (existing : Option String) (runtimeIssues : List String) :
    Option String :=
  let runtimeBlock := if runtimeIssues.isEmpty then ""
    else "Fix runtime execution failures:\n"
      ++ joinSep "\n" (runtimeIssues.map (fun issue => "- " ++ issue))
  let merged := joinSep "\n\n"
    (([(existing.map jsTrim).getD "", runtimeBlock] : List String).filter (fun s => s ≠ ""))
  if merged = "" then none else some merged

/-- The runtime-failure merge applied to the in-flight report (route.ts
lines 274-283 and 386-395): reject, request a retry, fold the runtime issues
into the issue list (`uniqStrings`) and the patch instructions. -/
def applyRuntimeFailure (report : QualityReport) (runtimeIssues : List String) :
    QualityReport :=
  { report with
    accepted := false
    retryRecommended := true
    issues := uniqJs (report.issues ++ runtimeIssues)
    patchInstructions := mergePatchInstructions report.patchInstructions runtimeIssues }

/-- The pre-loop runtime validation step (route.ts lines 269-314): merge a
failure into the report, or note skipped-validation issues, then capture
`lastRuntimeStable` whenever the runtime validation passed (even with phase
`skipped`). -/
def initialRuntimeStep (st : OrchestratorState) (rtPassed : Bool) (rtPhase : String)
    (rtIssues : List String) : OrchestratorState :=
  let st1 :=
    if rtPassed = false then { st with report := applyRuntimeFailure st.report rtIssues }
    else if rtPhase ≠ "skipped" then st
    else if rtIssues ≠ [] then { st with policyNotes := st.policyNotes ++ rtIssues }
    else st
  if rtPassed then
    { st1 with stable := some ⟨st1.files, st1.runtimeHint, st1.packageManifest,
        st1.responsiveReport, st1.report⟩ }
  else st1

/-- One iteration of the repair `while` loop (route.ts lines 322-433),
returning the new state and whether the loop `break`s: regenerate and
re-validate (oracle data), then on a runtime failure either roll back to
`lastRuntimeStable` (forcing `retryRecommended = false` and breaking) or,
with no snapshot, keep the merged failing report; on a non-skipped runtime
pass capture a fresh snapshot. -/
def repairIteration (st : OrchestratorState) (d : RepairPassData) :
    OrchestratorState × Bool :=
  let st1 := { st with
    retries := st.retries + 1
    files := d.policyFiles
    runtimeHint := some d.policyRuntimeHint
    packageManifest := some d.policyManifest
    responsiveReport := some d.policyResponsiveReport
    policyNotes := st.policyNotes ++ d.policyNotes
    report := d.report }
  if d.runtimePassed = false then
    match st1.stable with
    | some stable =>
      ({ st1 with
          files := stable.files
          runtimeHint := stable.runtimeHint
          packageManifest := stable.packageManifest
          responsiveReport := stable.responsiveReport
          report := { stable.report with retryRecommended := false } }, true)
    | none =>
      ({ st1 with report := applyRuntimeFailure d.report d.runtimeIssues }, false)
  else if d.runtimePhase ≠ "skipped" then
    ({ st1 with stable := some ⟨st1.files, st1.runtimeHint, st1.packageManifest,
        st1.responsiveReport, st1.report⟩ }, false)
  else if d.runtimeIssues ≠ [] then
    ({ st1 with policyNotes := st1.policyNotes ++ d.runtimeIssues }, false)
  else (st1, false)

/-- The repair `while` loop (route.ts lines 317-434), driven by the oracle
data of successive passes. -/
def repairLoop (maxRetries : Nat) (st : OrchestratorState) :
    List RepairPassData → OrchestratorState
  | [] => st
  | d :: rest =>
    if st.report.accepted = false ∧ st.report.retryRecommended = true
        ∧ st.retries < maxRetries then
      let step := repairIteration st d
      if step.2 then step.1 else repairLoop maxRetries step.1 rest
    else st

theorem initialRuntimeStep_passed_fields (st : OrchestratorState) (rtPhase : String)
    (rtIssues : List String) :
    (initialRuntimeStep st true rtPhase rtIssues).files = st.files
    ∧ (initialRuntimeStep st true rtPhase rtIssues).report = st.report
    ∧ (initialRuntimeStep st true rtPhase rtIssues).retries = st.retries
    ∧ (initialRuntimeStep st true rtPhase rtIssues).stable
        = some ⟨st.files, st.runtimeHint, st.packageManifest, st.responsiveReport,
            st.report⟩ := by
  simp only [initialRuntimeStep]
  split_ifs <;> simp_all

theorem repairLoop_rollback (maxRetries : Nat) (st : OrchestratorState)
    (d : RepairPassData) (passes : List RepairPassData) (snap : StableSnapshot)
    (hloop : st.report.accepted = false ∧ st.report.retryRecommended = true
      ∧ st.retries < maxRetries)
    (hstable : st.stable = some snap) (hfail : d.runtimePassed = false) :
    repairLoop maxRetries st (d :: passes)
      = { files := snap.files
          runtimeHint := snap.runtimeHint
          packageManifest := snap.packageManifest
          responsiveReport := snap.responsiveReport
          policyNotes := st.policyNotes ++ d.policyNotes
          report := { snap.report with retryRecommended := false }
          stable := st.stable
          retries := st.retries + 1 } := by
  rw [repairLoop, if_pos hloop]
  simp only [repairIteration, hfail, hstable]
  rfl

/-- Claim C2.  If a repair pass's runtime build validation fails while a
`lastRuntimeStable` snapshot exists, the orchestrator restores the
snapshot's files, runtime hint, manifest, responsive report and quality
report, forces `retryRecommended = false`, and breaks out of the repair loop
(no further pass runs, whatever oracle data remains); and in the
maxRetries = 1 scenario — pass 1 rejected but runtime-passing, the single
repair's runtime failing — the loop's final files are exactly pass 1's. -/
theorem repair_runtime_failure_rolls_back (maxRetries : Nat)
    (st : OrchestratorState) (d : RepairPassData) (passes : List RepairPassData)
    (snap : StableSnapshot)
    (hloop : st.report.accepted = false ∧ st.report.retryRecommended = true
      ∧ st.retries < maxRetries)
    (hstable : st.stable = some snap) (hfail : d.runtimePassed = false) :
    ((repairLoop maxRetries st (d :: passes)).files = snap.files
      ∧ (repairLoop maxRetries st (d :: passes)).runtimeHint = snap.runtimeHint
      ∧ (repairLoop maxRetries st (d :: passes)).packageManifest = snap.packageManifest
      ∧ (repairLoop maxRetries st (d :: passes)).responsiveReport = snap.responsiveReport
      ∧ (repairLoop maxRetries st (d :: passes)).report
          = { snap.report with retryRecommended := false })
    ∧ (∀ st0 : OrchestratorState, ∀ rtPhase : String, ∀ rtIssues : List String,
        st0.report.accepted = false → st0.report.retryRecommended = true →
        st0.retries < 1 →
        (repairLoop 1 (initialRuntimeStep st0 true rtPhase rtIssues) (d :: passes)).files
          = st0.files) := by
  constructor
  · rw [repairLoop_rollback maxRetries st d passes snap hloop hstable hfail]
    exact ⟨rfl, rfl, rfl, rfl, rfl⟩
  · intro st0 rtPhase rtIssues hacc hretry hret
    obtain ⟨hf, hr, hn, hs⟩ := initialRuntimeStep_passed_fields st0 rtPhase rtIssues
    have h := repairLoop_rollback 1 (initialRuntimeStep st0 true rtPhase rtIssues) d passes
      ⟨st0.files, st0.runtimeHint, st0.packageManifest, st0.responsiveReport, st0.report⟩
      (by rw [hr, hn]; exact ⟨hacc, hretry, hret⟩) hs hfail
    rw [h]

def rollbackWitnessSnap : StableSnapshot :=
  ⟨[⟨"index.html", "<html>v1</html>", "html"⟩], none, none, none,
    ⟨90, true, [], true, false, none, []⟩⟩

def rollbackWitnessState : OrchestratorState :=
  ⟨[⟨"index.html", "<html>v2</html>", "html"⟩], none, none, none, [],
    ⟨40, false, ["Broken layout"], false, true, none, []⟩,
    some rollbackWitnessSnap, 0⟩

def rollbackWitnessPass : RepairPassData :=
  ⟨[⟨"index.html", "<html>v3</html>", "html"⟩],
    ⟨PreviewRuntimeMode.srcdoc, none, "low complexity", 0⟩,
    REACT_FULL_MANIFEST, ⟨true, [], []⟩, [],
    ⟨45, false, ["Still broken"], false, true, none, []⟩,
    false, "build", ["Build failed"]⟩

theorem repair_runtime_failure_rolls_back_witness :
    (repairLoop 1 rollbackWitnessState [rollbackWitnessPass]).files
      = rollbackWitnessSnap.files
    ∧ (repairLoop 1 rollbackWitnessState [rollbackWitnessPass]).report
      = { rollbackWitnessSnap.report with retryRecommended := false } :=
  have h := repair_runtime_failure_rolls_back 1 rollbackWitnessState rollbackWitnessPass
    [] rollbackWitnessSnap (by refine ⟨rfl, rfl, ?_⟩; decide) rfl rfl
  ⟨h.1.1, h.1.2.2.2.2⟩
